import Mathlib

/-!
Verification development for the Featurewise tabular data-preparation library.

A table (pandas `DataFrame`) is modelled column-major: an ordered association
list from column names to ordered lists of cells.  A cell is a rational number,
a string, or the missing marker `na` (NaN).  A column whose cells are all
numbers or missing markers has a numeric dtype (pandas kind `b`/`i`/`f`/`c`);
a column containing a string has dtype `object`.
-/

inductive Cell where
  | num (q : ℚ)
  | str (s : String)
  | na
deriving DecidableEq, Repr

abbrev DataFrame := List (String × List Cell)

/-- Association-list lookup by column name (models `df[c]`, first match). -/
def alookup {α : Type} (l : List (String × α)) (c : String) : Option α :=
  match l with
  | [] => none
  | p :: rest => if p.1 = c then some p.2 else alookup rest c

/-- In-place column assignment `df[c] = cells` for an existing column. -/
def dfSet (df : DataFrame) (c : String) (cells : List Cell) : DataFrame :=
  df.map fun p => if p.1 = c then (p.1, cells) else p

/-- `df[c] = cells`: replace the column when present, else append it. -/
def dfSetOrAdd (df : DataFrame) (c : String) (cells : List Cell) : DataFrame :=
  if (alookup df c).isSome then dfSet df c cells else df ++ [(c, cells)]

/-- `df.drop(columns, axis=1)`. -/
def dfDrop (df : DataFrame) (columns : List String) : DataFrame :=
  df.filter fun p => decide (p.1 ∉ columns)

/-- dtype kind in `bifc`: every cell is a number or missing. -/
def isNumericDtype (cells : List Cell) : Bool :=
  cells.all fun c => match c with
    | .str _ => false
    | _ => true

/-- dtype `object`: some cell is a string. -/
def isObjectDtype (cells : List Cell) : Bool :=
  cells.any fun c => match c with
    | .str _ => true
    | _ => false

/-- The non-missing numeric values of a column (pandas skips NaN). -/
def numsOf (cells : List Cell) : List ℚ :=
  cells.filterMap fun c => match c with
    | .num q => some q
    | _ => none

/-- The non-missing string values of a column. -/
def strsOf (cells : List Cell) : List String :=
  cells.filterMap fun c => match c with
    | .str s => some s
    | _ => none

/-- All cells as strings, when the column holds no number and no missing value. -/
def allStrs : List Cell → Option (List String)
  | [] => some []
  | .str s :: rest => (allStrs rest).map (s :: ·)
  | _ => none

/-- All cells as numbers, when the column holds no string and no missing value. -/
def allNums : List Cell → Option (List ℚ)
  | [] => some []
  | .num q :: rest => (allNums rest).map (q :: ·)
  | _ => none

/-! ### Orderings

Executable lexicographic comparisons (the order `np.unique` and pandas sorting
impose on homogeneous data), written over `String.data` so that they compute. -/

/-- Lexicographic order on character lists. -/
def charsLtB : List Char → List Char → Bool
  | [], [] => false
  | [], _ :: _ => true
  | _ :: _, [] => false
  | a :: as, b :: bs => decide (a < b) || (decide (a = b) && charsLtB as bs)

/-- Lexicographic order on strings. -/
def strLtB (a b : String) : Bool := charsLtB a.data b.data

/-- Rank of a cell constructor, used to compare cells of different kinds. -/
def cellRank : Cell → ℕ
  | .na => 0
  | .num _ => 1
  | .str _ => 2

/-- Comparison on cells: numbers by value, strings lexicographically. -/
def cellLtB (a b : Cell) : Bool :=
  match a, b with
  | .num x, .num y => decide (x < y)
  | .str x, .str y => strLtB x y
  | _, _ => decide (cellRank a < cellRank b)

/-- Lexicographic comparison on group keys (tuples of cells). -/
def keyLtB : List Cell → List Cell → Bool
  | [], [] => false
  | [], _ :: _ => true
  | _ :: _, [] => false
  | a :: as, b :: bs => cellLtB a b || (decide (a = b) && keyLtB as bs)

/-- Insert into a strictly `lt`-sorted duplicate-free list, keeping it so. -/
def insertSortedUnique {α : Type} [DecidableEq α] (lt : α → α → Bool) (x : α) :
    List α → List α
  | [] => [x]
  | y :: ys =>
    if x = y then y :: ys
    else if lt x y then x :: y :: ys
    else y :: insertSortedUnique lt x ys

/-- The distinct values of a list in ascending `lt`-order (models `np.unique`). -/
def sortedUnique {α : Type} [DecidableEq α] (lt : α → α → Bool) (l : List α) : List α :=
  l.foldr (insertSortedUnique lt) []

/-- Index of the first occurrence of a string in a list (0 when absent). -/
def idxOf (s : String) : List String → ℕ
  | [] => 0
  | t :: ts => if t = s then 0 else idxOf s ts + 1

/-- Sequence a list of fallible computations, stopping at the first failure. -/
def mapExcept {α β : Type} (f : α → Except String β) : List α → Except String (List β)
  | [] => .ok []
  | x :: xs =>
    match f x with
    | .error e => .error e
    | .ok y => (mapExcept f xs).map (y :: ·)

/-! ### `featurewise.imputation.MissingValueImputation`

Strategies are the values of the Python `strategies` dict: a numeric literal
(`int`/`float`) or a strategy name string. -/

inductive Strategy where
  | custom (q : ℚ)
  | strat (s : String)
deriving DecidableEq, Repr

/-- `df[column].mean()`: mean of the non-missing values, NaN when there are none. -/
def colMean (cells : List Cell) : Cell :=
  if (numsOf cells).length = 0 then Cell.na
  else Cell.num ((numsOf cells).sum / ((numsOf cells).length : ℚ))

/-- Insert into an ascending list of rationals. -/
def insertRatSorted (x : ℚ) : List ℚ → List ℚ
  | [] => [x]
  | y :: ys => if x ≤ y then x :: y :: ys else y :: insertRatSorted x ys

/-- Ascending sort of a list of rationals. -/
def sortRats (l : List ℚ) : List ℚ := l.foldr insertRatSorted []

/-- `df[column].median()`: middle of the sorted non-missing values, averaging
the two middles for an even count; NaN when there are none. -/
def colMedian (cells : List Cell) : Cell :=
  let nums := sortRats (numsOf cells)
  let n := nums.length
  if n = 0 then Cell.na
  else if n % 2 = 1 then Cell.num (nums.getD (n / 2) 0)
  else Cell.num ((nums.getD (n / 2 - 1) 0 + nums.getD (n / 2) 0) / 2)

/-- First (smallest) most-frequent value of a list (`Series.mode()[0]` yields
the smallest of the modal values, since `mode()` is sorted). -/
def modeOf {α : Type} [DecidableEq α] (lt : α → α → Bool) (l : List α) : Option α :=
  let u := sortedUnique lt l
  let maxCnt := (u.map fun x => l.count x).foldr max 0
  u.find? fun x => l.count x == maxCnt

/-- `MissingValueImputation._compute_fill_value` (imputation.py lines 23-57). -/
def computeFillValue (cells : List Cell) (column : String) (strategy : Strategy) :
    Except String Cell :=
  match strategy with
  | .custom q => .ok (.num q)
  | .strat s =>
    if s = "mean" then
      if isNumericDtype cells then .ok (colMean cells)
      else .error ("Mean strategy is not applicable for non-numeric column " ++ column ++ ".")
    else if s = "median" then
      if isNumericDtype cells then .ok (colMedian cells)
      else .error ("Median strategy is not applicable for non-numeric column " ++ column ++ ".")
    else if s = "mode" then
      if isObjectDtype cells then
        match modeOf strLtB (strsOf cells) with
        | some t => .ok (.str t)
        | none => .error "index 0 is out of bounds"
      else
        match modeOf (fun a b => decide (a < b)) (numsOf cells) with
        | some q => .ok (.num q)
        | none => .error "index 0 is out of bounds"
    else
      .error ("Strategy " ++ s ++ " not supported. Please use 'mean', 'median', 'mode', or a custom number or value.")

/-- The `for column, strategy in self.strategies.items()` loop of
`MissingValueImputation.fit` (imputation.py lines 73-77). -/
def fitGo (df : DataFrame) : List (String × Strategy) → Except String (List (String × Cell))
  | [] => .ok []
  | (column, strategy) :: rest =>
    match alookup df column with
    | none => .error ("Column " ++ column ++ " is not present in the DataFrame.")
    | some cells =>
      match computeFillValue cells column strategy with
      | .error e => .error e
      | .ok v => (fitGo df rest).map ((column, v) :: ·)

structure MissingValueImputation where
  strategies : List (String × Strategy)

/-- `MissingValueImputation.fit`: computes the fill values; never touches the table. -/
def MissingValueImputation.fit (m : MissingValueImputation) (df : DataFrame) :
    Except String (List (String × Cell)) :=
  fitGo df m.strategies

/-- `Series.fillna(v)`: replace missing cells by `v`; filling with NaN changes nothing. -/
def fillna (cells : List Cell) (v : Cell) : List Cell :=
  match v with
  | .na => cells
  | _ => cells.map fun x => if x = .na then v else x

/-- `MissingValueImputation.transform` (imputation.py lines 94-100): fills the
fitted columns one at a time, mutating `df` in place, and stops with an error at
the first fitted column absent from `df`.  Returns the table as left behind
together with the error, if any. -/
def MissingValueImputation.transform (fill_values : List (String × Cell)) (df : DataFrame) :
    DataFrame × Option String :=
  match fill_values with
  | [] => (df, none)
  | (column, fill_value) :: rest =>
    match alookup df column with
    | none => (df, some ("Column " ++ column ++ " is not present in the DataFrame."))
    | some cells =>
      MissingValueImputation.transform rest (dfSet df column (fillna cells fill_value))

/-- `MissingValueImputation.fit_transform`: fit, then transform.  When fitting
fails the table is returned as is (fit never mutates it). -/
def MissingValueImputation.fit_transform (m : MissingValueImputation) (df : DataFrame) :
    DataFrame × Option String :=
  match m.fit df with
  | .error e => (df, some e)
  | .ok fvs => MissingValueImputation.transform fvs df

/-! ### `featurewise.encoding.FeatureEncoding` -/

/-- `sklearn.LabelEncoder.fit_transform` on one column: classes are the distinct
values sorted ascending (`np.unique`); each value is mapped to the index of its
class.  Mixed or missing data makes the underlying sort fail. -/
def labelEncodeCells (cells : List Cell) : Except String (List Cell) :=
  match allStrs cells with
  | some strs =>
    let classes := sortedUnique strLtB strs
    .ok (strs.map fun s => Cell.num ((idxOf s classes : ℕ) : ℚ))
  | none => .error "argument must be a string or a number"

/-- `FeatureEncoding.label_encode` (encoding.py lines 52-68): per-column loop,
validating and encoding one column at a time on the held table. -/
def FeatureEncoding.label_encode (df : DataFrame) : List String → DataFrame × Option String
  | [] => (df, none)
  | column :: rest =>
    match alookup df column with
    | none => (df, some ("Column '" ++ column ++ "' is not present in the DataFrame."))
    | some cells =>
      if isObjectDtype cells then
        match labelEncodeCells cells with
        | .error e => (df, some e)
        | .ok encoded => FeatureEncoding.label_encode (dfSet df column encoded) rest
      else (df, some ("Column '" ++ column ++ "' is not of object type."))

/-- The validation loop of `FeatureEncoding.one_hot_encode` (encoding.py lines
91-97): checks every listed column before anything is transformed. -/
def oneHotValidate (df : DataFrame) : List String → Option String
  | [] => none
  | column :: rest =>
    match alookup df column with
    | none => some ("Column '" ++ column ++ "' is not present in the DataFrame.")
    | some cells =>
      if isObjectDtype cells then oneHotValidate df rest
      else some ("Column '" ++ column ++ "' is not of object type.")

/-- `OneHotEncoder(drop='first')` output for one input column: one 0/1 indicator
column per distinct category except the first (ascending order), named
`<column>_<category>`. -/
def oneHotCols (column : String) (strs : List String) : List (String × List Cell) :=
  ((sortedUnique strLtB strs).drop 1).map fun cat =>
    (column ++ "_" ++ cat, strs.map fun s => Cell.num (if s = cat then 1 else 0))

/-- The string values of each listed column, when every cell is a string. -/
def columnsStrs (df : DataFrame) : List String → Option (List (String × List String))
  | [] => some []
  | column :: rest =>
    match alookup df column with
    | none => none
    | some cells =>
      match allStrs cells with
      | none => none
      | some strs => (columnsStrs df rest).map ((column, strs) :: ·)

/-- The `try` block of `FeatureEncoding.one_hot_encode` (encoding.py lines
99-115): encode the listed columns, drop the originals, append the indicator
columns.  The sklearn encoder rejects missing or mixed-type data. -/
def oneHotTransform (df : DataFrame) (columns : List String) : Except String DataFrame :=
  match columnsStrs df columns with
  | none => .error "Input contains NaN"
  | some colvals => .ok (dfDrop df columns ++ colvals.flatMap fun p => oneHotCols p.1 p.2)

/-- `FeatureEncoding.one_hot_encode` (encoding.py lines 70-117): validate every
listed column first; only then transform.  Returns the held table (unchanged on
a validation error) together with the error, if any. -/
def FeatureEncoding.one_hot_encode (df : DataFrame) (columns : List String) :
    DataFrame × Option String :=
  match oneHotValidate df columns with
  | some e => (df, some e)
  | none =>
    match oneHotTransform df columns with
    | .error e => (df, some e)
    | .ok out => (out, none)

/-! ### `featurewise.feature_creation.PolynomialFeaturesTransformer` -/

structure PolynomialFeaturesTransformer where
  degree : Int

/-- `PolynomialFeaturesTransformer.__init__` (feature_creation.py lines 17-32). -/
def PolynomialFeaturesTransformer.init (degree : Int) :
    Except String PolynomialFeaturesTransformer :=
  if degree < 1 then .error "Degree must be a positive integer."
  else .ok ⟨degree⟩

/-- One level of `combinations_with_replacement`: prepend each element of the
list to a size-`k` multisubset drawn from that element's suffix, in order. -/
def cwrStep {α : Type} (f : List α → List (List α)) : List α → List (List α)
  | [] => []
  | x :: xs => (f (x :: xs)).map (x :: ·) ++ cwrStep f xs

/-- `itertools.combinations_with_replacement`: all ascending multisubsets of `l`
of size `k`, in lexicographic order (the term order of sklearn's
`PolynomialFeatures` within one total degree). -/
def cwr {α : Type} : ℕ → List α → List (List α)
  | 0 => fun _ => [[]]
  | k + 1 => fun l => cwrStep (cwr k) l

/-- Group consecutive equal values with their multiplicities. -/
def groupRuns {α : Type} [DecidableEq α] : List α → List (α × ℕ)
  | [] => []
  | x :: xs =>
    match groupRuns xs with
    | [] => [(x, 1)]
    | (y, k) :: rest => if x = y then (y, k + 1) :: rest else (x, 1) :: (y, k) :: rest

/-- `x` or `x^k`, as in `PolynomialFeatures.get_feature_names_out`. -/
def powName (n : String) (k : ℕ) : String :=
  if k = 1 then n else n ++ "^" ++ toString k

/-- The sklearn feature name of the monomial given by an ascending index multiset. -/
def comboName (names : List String) (combo : List ℕ) : String :=
  String.intercalate " " ((groupRuns combo).map fun p => powName (names.getD p.1 "") p.2)

/-- The value of a monomial at row `r` of the column matrix. -/
def comboValue (cols : List (List ℚ)) (combo : List ℕ) (r : ℕ) : ℚ :=
  (combo.map fun i => (cols.getD i []).getD r 0).prod

/-- The pure numeric values of each column, when no cell is a string or missing. -/
def columnsNums : DataFrame → Option (List (String × List ℚ))
  | [] => some []
  | (column, cells) :: rest =>
    match allNums cells with
    | none => none
    | some qs => (columnsNums rest).map ((column, qs) :: ·)

/-- The body of `PolynomialFeaturesTransformer.fit_transform` after the degree
update (feature_creation.py lines 56-86): numeric-only validation, then the
sklearn polynomial expansion without bias term. -/
def polyGo (degree : ℕ) (df : DataFrame) : Except String DataFrame :=
  let numeric_cols := df.filter fun p => isNumericDtype p.2
  if numeric_cols.isEmpty then .error "No numeric columns found in the DataFrame."
  else
    let categorical_cols := df.filter fun p => isObjectDtype p.2
    if ¬ categorical_cols.isEmpty then
      .error ("Categorical columns found: " ++
        String.intercalate ", " (categorical_cols.map fun p => p.1) ++
        ". PolynomialFeaturesTransformer can only process numerical data.")
    else
      match columnsNums numeric_cols with
      | none => .error "Failed to transform data: Input contains NaN."
      | some colvals =>
        let nRows := (colvals.headD ("", [])).2.length
        if nRows = 0 then .error "Failed to transform data: Found array with 0 sample(s)."
        else
          let names := colvals.map fun p => p.1
          let cols := colvals.map fun p => p.2
          let combos := (List.range degree).flatMap fun k => cwr (k + 1) (List.range cols.length)
          if combos.isEmpty then
            .error "PolynomialFeaturesTransformer produced no features. Check input data."
          else
            .ok (combos.map fun cb =>
              (comboName names cb, (List.range nRows).map fun r => Cell.num (comboValue cols cb r)))

/-- `PolynomialFeaturesTransformer.fit_transform` (feature_creation.py lines
34-86): optionally update the degree, then expand. -/
def PolynomialFeaturesTransformer.fit_transform (t : PolynomialFeaturesTransformer)
    (df : DataFrame) (degree : Option Int) : Except String DataFrame :=
  match degree with
  | some d => if d < 1 then .error "Degree must be a positive integer." else polyGo d.toNat df
  | none => polyGo t.degree.toNat df

/-! ### `featurewise.feature_creation.AggregationTransformer` -/

structure AggregationTransformer where
  groupby_cols : List String
  agg_funcs : List (String × String)

/-- Number of rows of the table (all columns have the same length in pandas). -/
def dfNumRows (df : DataFrame) : ℕ := (df.headD ("", [])).2.length

/-- The group key of row `r`: the tuple of the row's group-by column values. -/
def aggKeyOf (t : AggregationTransformer) (df : DataFrame) (r : ℕ) : List Cell :=
  t.groupby_cols.map fun c => ((alookup df c).getD []).getD r Cell.na

/-- The rows that take part in grouping: pandas `groupby` drops rows whose key
contains a missing value. -/
def aggValidRows (t : AggregationTransformer) (df : DataFrame) : List ℕ :=
  (List.range (dfNumRows df)).filter fun r => (aggKeyOf t df r).all fun c => c ≠ Cell.na

/-- The distinct group keys in ascending order (pandas `groupby` sorts keys). -/
def aggKeys (t : AggregationTransformer) (df : DataFrame) : List (List Cell) :=
  sortedUnique keyLtB ((aggValidRows t df).map (aggKeyOf t df))

/-- The values of column `col` over the rows of group `k`. -/
def aggGroupVals (t : AggregationTransformer) (df : DataFrame) (col : String)
    (k : List Cell) : List Cell :=
  ((aggValidRows t df).filter fun r => aggKeyOf t df r = k).map fun r =>
    ((alookup df col).getD []).getD r Cell.na

/-- One named pandas aggregation function applied to the cells of one group.
`sum` skips missing values (and concatenates for object data), `mean`/`min`/`max`
skip missing values, `count` counts the non-missing cells; an unrecognized name
fails. -/
def aggApply (fn : String) (cells : List Cell) : Except String Cell :=
  let nums := numsOf cells
  let strs := strsOf cells
  if fn = "sum" then
    if strs.isEmpty then .ok (.num nums.sum)
    else if nums.isEmpty then .ok (.str (String.join strs))
    else .error "unsupported operand type(s) for +"
  else if fn = "mean" then
    if ¬ strs.isEmpty then .error "Could not convert string to numeric"
    else if nums.isEmpty then .ok .na
    else .ok (.num (nums.sum / (nums.length : ℚ)))
  else if fn = "count" then .ok (.num (nums.length + strs.length : ℕ))
  else if fn = "min" then
    if ¬ strs.isEmpty ∧ ¬ nums.isEmpty then .error "unorderable types"
    else if ¬ strs.isEmpty then .ok (.str ((sortedUnique strLtB strs).headD ""))
    else
      match (sortRats nums).head? with
      | some q => .ok (.num q)
      | none => .ok .na
  else if fn = "max" then
    if ¬ strs.isEmpty ∧ ¬ nums.isEmpty then .error "unorderable types"
    else if ¬ strs.isEmpty then .ok (.str ((sortedUnique strLtB strs).getLastD ""))
    else
      match (sortRats nums).getLast? with
      | some q => .ok (.num q)
      | none => .ok .na
  else .error ("'" ++ fn ++ "' is not a valid function for 'SeriesGroupBy' object")

/-- The group-by columns of the output, restored as regular columns by
`reset_index()`: the `i`-th group-by column holds the `i`-th component of each
distinct key, one row per key. -/
def gcolsColumns (gcols : List String) (keys : List (List Cell)) (i : ℕ) : DataFrame :=
  match gcols with
  | [] => []
  | c :: rest => (c, keys.map fun k => k.getD i Cell.na) :: gcolsColumns rest keys (i + 1)

/-- `AggregationTransformer.fit_transform` (feature_creation.py lines 123-157):
presence checks, then `df.groupby(groupby_cols).agg(agg_funcs).reset_index()`. -/
def AggregationTransformer.fit_transform (t : AggregationTransformer) (df : DataFrame) :
    Except String DataFrame :=
  if ¬ t.groupby_cols.all (fun c => (alookup df c).isSome) then
    .error "Some groupby columns are not present in the DataFrame."
  else if ¬ t.agg_funcs.all (fun p => (alookup df p.1).isSome) then
    .error "Some columns in agg_funcs are not present in the DataFrame."
  else
    match mapExcept
        (fun p => (mapExcept (fun k => aggApply p.2 (aggGroupVals t df p.1 k)) (aggKeys t df)).map
          fun vals => (p.1, vals))
        t.agg_funcs with
    | .error e => .error ("Failed to perform aggregation: " ++ e)
    | .ok aggPart => .ok (gcolsColumns t.groupby_cols (aggKeys t df) 0 ++ aggPart)

/-! ### `featurewise.feature_creation.BinningTransformer` -/

structure BinningTransformer where
  binning_cols : List String
  strategy : String
  bins : ℕ
  custom_bins : Option (List ℚ)

/-- `BinningTransformer.__init__` (feature_creation.py lines 171-196). -/
def BinningTransformer.init (binning_cols : List String) (strategy : String) (bins : ℕ)
    (custom_bins : Option (List ℚ)) : Except String BinningTransformer :=
  if strategy ≠ "equal_width" ∧ strategy ≠ "equal_frequency" ∧ strategy ≠ "custom" then
    .error "Invalid strategy. Choose 'equal_width', 'equal_frequency', or 'custom'."
  else .ok ⟨binning_cols, strategy, bins, custom_bins⟩

/-- Rendering of a rational bin edge. -/
def ratStr (q : ℚ) : String := toString q.num ++ "/" ++ toString q.den

/-- Rendering of a half-open interval category, as produced by `pd.cut`. -/
def intervalStr (lo hi : ℚ) : String := "(" ++ ratStr lo ++ ", " ++ ratStr hi ++ "]"

/-- Assign a value to the bin `(lo, hi]` given the ascending edges; the first
interval also takes its left edge (`include_lowest=True`).  Out-of-range values
get no bin (NaN). -/
def cutVal (edges : List ℚ) (first : Bool) (q : ℚ) : Cell :=
  match edges with
  | lo :: hi :: rest =>
    if (first && decide (q = lo)) || (decide (lo < q) && decide (q ≤ hi)) then
      .str (intervalStr lo hi)
    else cutVal (hi :: rest) false q
  | _ => Cell.na

/-- `pd.cut(col, bins=edges)` over the cells: missing stays missing. -/
def cutCells (edges : List ℚ) (cells : List Cell) : List Cell :=
  cells.map fun c =>
    match c with
    | .num q => cutVal edges true q
    | _ => Cell.na

/-- Linear-interpolation quantile of an ascending list at fraction `p`. -/
def quantileAt (sorted : List ℚ) (p : ℚ) : ℚ :=
  match sorted with
  | [] => 0
  | _ :: _ =>
    let pos : ℚ := p * ((sorted.length : ℚ) - 1)
    let f : ℤ := ⌊pos⌋
    let i : ℕ := f.toNat
    let lo := sorted.getD i 0
    let hi := sorted.getD (i + 1) lo
    lo + (hi - lo) * (pos - (f : ℚ))

/-- Remove consecutive duplicates of an ascending list (`duplicates='drop'`). -/
def dedupAdjacent : List ℚ → List ℚ
  | [] => []
  | [x] => [x]
  | x :: y :: rest => if x = y then dedupAdjacent (y :: rest) else x :: dedupAdjacent (y :: rest)

/-- Binning of one column under the transformer's strategy: the `try` body of
the loop in `BinningTransformer.fit_transform` (feature_creation.py lines
220-233), with `pd.cut` / `pd.qcut` modelled over exact rationals. -/
def binCells (t : BinningTransformer) (cells : List Cell) : Except String (List Cell) :=
  if t.strategy = "equal_width" then
    if ¬ isNumericDtype cells then .error "could not convert string to float"
    else if t.bins = 0 then .error "bins must be a positive integer"
    else
      match sortRats (numsOf cells) with
      | [] => .ok (cells.map fun _ => Cell.na)
      | q :: qs =>
        let lo := q
        let hi := (q :: qs).getLastD q
        let lo2 := if lo = hi then lo - 1/2 else lo
        let hi2 := if lo = hi then hi + 1/2 else hi
        let edges := (List.range (t.bins + 1)).map fun i =>
          lo2 + (hi2 - lo2) * (i : ℚ) / (t.bins : ℚ)
        .ok (cutCells edges cells)
  else if t.strategy = "equal_frequency" then
    if ¬ isNumericDtype cells then .error "could not convert string to float"
    else if t.bins = 0 then .error "q must be a positive integer"
    else
      match sortRats (numsOf cells) with
      | [] => .error "cannot compute quantiles on empty data"
      | q :: qs =>
        let edges := dedupAdjacent ((List.range (t.bins + 1)).map fun i =>
          quantileAt (q :: qs) ((i : ℚ) / (t.bins : ℚ)))
        if edges.length < 2 then
          .error "Bin labels must be one fewer than the number of bin edges"
        else .ok (cutCells edges cells)
  else if t.strategy = "custom" then
    match t.custom_bins with
    | some bs =>
      if bs.length > 1 then
        if ¬ isNumericDtype cells then .error "could not convert string to float"
        else .ok (cutCells bs cells)
      else .error "Custom bins must be a list with at least two elements."
    | none => .error "Custom bins must be a list with at least two elements."
  else .ok cells

/-- The per-column loop of `BinningTransformer.fit_transform` (feature_creation.py
lines 215-237): check presence, bin, append `<column>_binned`, in order, mutating
`df` in place; an error stops the loop, keeping earlier appended columns. -/
def binRunAux (t : BinningTransformer) (df : DataFrame) : List String → DataFrame × Option String
  | [] => (df, none)
  | col :: rest =>
    match alookup df col with
    | none => (df, some ("Column '" ++ col ++ "' not found in the DataFrame."))
    | some cells =>
      match binCells t cells with
      | .error e => (df, some ("Failed to bin column '" ++ col ++ "': " ++ e))
      | .ok binned => binRunAux t (dfSetOrAdd df (col ++ "_binned") binned) rest

/-- `BinningTransformer.fit_transform` (feature_creation.py lines 198-239). -/
def BinningTransformer.fit_transform (t : BinningTransformer) (df : DataFrame) :
    DataFrame × Option String :=
  binRunAux t df t.binning_cols

/-! ### Lemmas about the table primitives -/

theorem alookup_mem {α : Type} {l : List (String × α)} {c : String} {v : α}
    (h : alookup l c = some v) : (c, v) ∈ l := by
  induction l with
  | nil => simp [alookup] at h
  | cons p rest ih =>
    rw [alookup] at h
    split at h
    · rename_i hp
      cases h
      subst hp
      exact List.mem_cons_self _ _
    · exact List.mem_cons_of_mem _ (ih h)

theorem alookup_append_left {α : Type} {l₁ l₂ : List (String × α)} {c : String} {v : α}
    (h : alookup l₁ c = some v) : alookup (l₁ ++ l₂) c = some v := by
  induction l₁ with
  | nil => simp [alookup] at h
  | cons p rest ih =>
    simp only [List.cons_append, alookup] at h ⊢
    split at h
    · rename_i hp
      rw [if_pos hp]
      exact h
    · rename_i hp
      rw [if_neg hp]
      exact ih h

theorem alookup_append_right {α : Type} {l₁ l₂ : List (String × α)} {c : String}
    (h : alookup l₁ c = none) : alookup (l₁ ++ l₂) c = alookup l₂ c := by
  induction l₁ with
  | nil => simp
  | cons p rest ih =>
    simp only [List.cons_append, alookup] at h ⊢
    split at h
    · cases h
    · rename_i hp
      rw [if_neg hp]
      exact ih h

theorem alookup_dfSet_same {df : DataFrame} {c : String} {x : List Cell}
    (h : (alookup df c).isSome = true) : alookup (dfSet df c x) c = some x := by
  induction df with
  | nil => simp [alookup] at h
  | cons p rest ih =>
    simp only [alookup] at h
    by_cases hp : p.1 = c
    · simp [dfSet, alookup, hp]
    · rw [if_neg hp] at h
      show alookup ((if p.1 = c then (p.1, x) else p) :: dfSet rest c x) c = some x
      rw [if_neg hp]
      simp only [alookup, if_neg hp]
      exact ih h

theorem alookup_dfSet_ne {df : DataFrame} {c d : String} {x : List Cell}
    (h : c ≠ d) : alookup (dfSet df c x) d = alookup df d := by
  induction df with
  | nil => rfl
  | cons p rest ih =>
    show alookup ((if p.1 = c then (p.1, x) else p) :: dfSet rest c x) d = alookup (p :: rest) d
    by_cases hp : p.1 = c
    · rw [if_pos hp]
      simp only [alookup]
      rw [if_neg (hp ▸ h), if_neg (hp ▸ h)]
      exact ih
    · rw [if_neg hp]
      simp only [alookup]
      by_cases hd : p.1 = d
      · rw [if_pos hd, if_pos hd]
      · rw [if_neg hd, if_neg hd]
        exact ih

theorem alookup_dfSet_isSome {df : DataFrame} {c d : String} {x : List Cell} :
    (alookup (dfSet df c x) d).isSome = (alookup df d).isSome := by
  by_cases h : c = d
  · subst h
    cases hdf : alookup df c with
    | none =>
      have : alookup (dfSet df c x) c = none := by
        induction df with
        | nil => rfl
        | cons p rest ih =>
          simp only [alookup] at hdf
          split at hdf
          · cases hdf
          · rename_i hp
            show alookup ((if p.1 = c then (p.1, x) else p) :: dfSet rest c x) c = none
            rw [if_neg hp]
            simp only [alookup, if_neg hp]
            exact ih hdf
      simp [this, hdf]
    | some v =>
      rw [alookup_dfSet_same (by simp [hdf])]
      simp
  · rw [alookup_dfSet_ne h]

theorem alookup_isSome_of_mem {α : Type} {l : List (String × α)} {c : String} {v : α}
    (hmem : (c, v) ∈ l) : (alookup l c).isSome = true := by
  induction l with
  | nil => simp at hmem
  | cons p rest ih =>
    rcases List.mem_cons.1 hmem with h | h
    · cases h
      simp [alookup]
    · rw [alookup]
      split
      · simp
      · exact ih h

theorem alookup_dfSetOrAdd_ne {df : DataFrame} {c d : String} {x : List Cell}
    (h : c ≠ d) : alookup (dfSetOrAdd df c x) d = alookup df d := by
  rw [dfSetOrAdd]
  split
  · exact alookup_dfSet_ne h
  · cases hdf : alookup df d with
    | some v => exact alookup_append_left hdf
    | none =>
      rw [alookup_append_right hdf]
      simp [alookup, h]

theorem alookup_dfSetOrAdd_self {df : DataFrame} {c : String} {x : List Cell} :
    alookup (dfSetOrAdd df c x) c = some x := by
  rw [dfSetOrAdd]
  split
  · exact alookup_dfSet_same (by assumption)
  · rename_i hnone
    have hn : alookup df c = none := by
      cases h : alookup df c
      · rfl
      · rw [h] at hnone
        simp at hnone
    rw [alookup_append_right hn]
    simp [alookup]

theorem fillna_length {cells : List Cell} {v : Cell} : (fillna cells v).length = cells.length := by
  cases v <;> simp [fillna]

theorem fillna_getD_of_na {cells : List Cell} {v : Cell} {i : ℕ}
    (hi : i < cells.length) (hna : cells.getD i Cell.na = Cell.na) (hv : v ≠ Cell.na) :
    (fillna cells v).getD i Cell.na = v := by
  have hmap : fillna cells v = cells.map fun x => if x = Cell.na then v else x := by
    cases v with
    | na => exact absurd rfl hv
    | num q => rfl
    | str s => rfl
  rw [List.getD_eq_getElem?_getD, List.getElem?_eq_getElem hi, Option.getD_some] at hna
  rw [hmap, List.getD_eq_getElem?_getD, List.getElem?_map, List.getElem?_eq_getElem hi]
  simp [hna]

theorem fillna_getD_of_not_na {cells : List Cell} {v : Cell} {i : ℕ}
    (hi : i < cells.length) (hna : cells.getD i Cell.na ≠ Cell.na) :
    (fillna cells v).getD i Cell.na = cells.getD i Cell.na := by
  rw [List.getD_eq_getElem?_getD, List.getElem?_eq_getElem hi, Option.getD_some] at hna
  cases v with
  | na => rfl
  | num q =>
    simp [fillna, List.getD_eq_getElem?_getD, List.getElem?_map, List.getElem?_eq_getElem hi, hna]
  | str s =>
    simp [fillna, List.getD_eq_getElem?_getD, List.getElem?_map, List.getElem?_eq_getElem hi, hna]

/-! ### Lemmas about the orderings and `sortedUnique` -/

theorem strLtB_iff {a b : String} : strLtB a b = true ↔ a < b := by
  rw [String.lt_iff_toList_lt]
  show charsLtB a.data b.data = true ↔ a.data < b.data
  generalize a.data = x
  generalize b.data = y
  induction x generalizing y with
  | nil =>
    cases y with
    | nil =>
      simp only [charsLtB, Bool.false_eq_true, false_iff]
      exact fun h => by cases h
    | cons d ds =>
      simp only [charsLtB, true_iff]
      exact List.Lex.nil
  | cons c cs ih =>
    cases y with
    | nil =>
      simp only [charsLtB, Bool.false_eq_true, false_iff]
      exact fun h => by cases h
    | cons d ds =>
      simp only [charsLtB, Bool.or_eq_true, decide_eq_true_eq, Bool.and_eq_true]
      constructor
      · rintro (h | ⟨h1, h2⟩)
        · exact List.Lex.rel h
        · subst h1
          exact List.Lex.cons ((ih ds).1 h2)
      · intro h
        cases h with
        | rel h => exact Or.inl h
        | cons h => exact Or.inr ⟨rfl, (ih ds).2 h⟩

theorem strLtB_irrefl (a : String) : strLtB a a = false := by
  by_contra h
  rw [Bool.not_eq_false, strLtB_iff] at h
  exact lt_irrefl _ h

theorem strLtB_trans {a b c : String} (h1 : strLtB a b = true) (h2 : strLtB b c = true) :
    strLtB a c = true := by
  rw [strLtB_iff] at h1 h2 ⊢
  exact lt_trans h1 h2

theorem strLtB_connex {a b : String} (hne : a ≠ b) (h : strLtB a b = false) :
    strLtB b a = true := by
  rw [strLtB_iff]
  rcases lt_or_gt_of_ne hne with hlt | hgt
  · rw [← strLtB_iff] at hlt
    rw [h] at hlt
    cases hlt
  · exact hgt

theorem cellLtB_irrefl (a : Cell) : cellLtB a a = false := by
  cases a <;> simp [cellLtB, strLtB_irrefl]

theorem cellLtB_trans {a b c : Cell} (h1 : cellLtB a b = true) (h2 : cellLtB b c = true) :
    cellLtB a c = true := by
  cases a <;> cases b <;> cases c <;>
    simp_all only [cellLtB, cellRank, decide_eq_true_eq] <;>
    first
      | omega
      | exact lt_trans h1 h2
      | exact strLtB_trans h1 h2

theorem cellLtB_connex {a b : Cell} (hne : a ≠ b) (h : cellLtB a b = false) :
    cellLtB b a = true := by
  cases a <;> cases b <;>
    simp_all only [cellLtB, cellRank, decide_eq_true_eq, decide_eq_false_iff_not, not_lt,
      Cell.num.injEq, Cell.str.injEq, ne_eq, not_false_eq_true, not_true_eq_false] <;>
    first
      | omega
      | exact lt_of_le_of_ne h (Ne.symm hne)
      | exact strLtB_connex hne h
      | simp_all

theorem keyLtB_irrefl (a : List Cell) : keyLtB a a = false := by
  induction a with
  | nil => rfl
  | cons x xs ih => simp [keyLtB, cellLtB_irrefl, ih]

theorem keyLtB_trans {a b c : List Cell} (h1 : keyLtB a b = true) (h2 : keyLtB b c = true) :
    keyLtB a c = true := by
  induction a generalizing b c with
  | nil =>
    cases b with
    | nil => cases h1
    | cons y ys =>
      cases c with
      | nil => cases h2
      | cons z zs => rfl
  | cons x xs ih =>
    cases b with
    | nil => cases h1
    | cons y ys =>
      cases c with
      | nil => cases h2
      | cons z zs =>
        simp only [keyLtB, Bool.or_eq_true, Bool.and_eq_true, decide_eq_true_eq] at h1 h2 ⊢
        rcases h1 with h1 | ⟨rfl, h1⟩
        · rcases h2 with h2 | ⟨rfl, h2⟩
          · exact Or.inl (cellLtB_trans h1 h2)
          · exact Or.inl h1
        · rcases h2 with h2 | ⟨rfl, h2⟩
          · exact Or.inl h2
          · exact Or.inr ⟨rfl, ih h1 h2⟩

theorem keyLtB_connex {a b : List Cell} (hne : a ≠ b) (h : keyLtB a b = false) :
    keyLtB b a = true := by
  induction a generalizing b with
  | nil =>
    cases b with
    | nil => exact absurd rfl hne
    | cons y ys => cases h
  | cons x xs ih =>
    cases b with
    | nil => rfl
    | cons y ys =>
      simp only [keyLtB, Bool.or_eq_true, Bool.and_eq_true, decide_eq_true_eq,
        Bool.or_eq_false_iff, Bool.and_eq_false_iff] at h ⊢
      by_cases hxy : x = y
      · subst hxy
        have hne2 : xs ≠ ys := fun hh => hne (by rw [hh])
        rcases h.2 with h2 | h2
        · simp at h2
        · exact Or.inr ⟨rfl, ih hne2 h2⟩
      · exact Or.inl (cellLtB_connex hxy h.1)

theorem mem_insertSortedUnique {α : Type} [DecidableEq α] {lt : α → α → Bool} {x y : α}
    {l : List α} : y ∈ insertSortedUnique lt x l ↔ y = x ∨ y ∈ l := by
  induction l with
  | nil => simp [insertSortedUnique]
  | cons z zs ih =>
    rw [insertSortedUnique]
    split
    · rename_i hxz
      subst hxz
      simp only [List.mem_cons] <;> tauto
    · split
      · simp only [List.mem_cons] <;> tauto
      · simp only [List.mem_cons, ih] <;> tauto

theorem mem_sortedUnique {α : Type} [DecidableEq α] (lt : α → α → Bool) (y : α)
    (l : List α) : y ∈ sortedUnique lt l ↔ y ∈ l := by
  induction l with
  | nil => simp [sortedUnique]
  | cons z zs ih =>
    rw [sortedUnique, List.foldr_cons]
    rw [sortedUnique] at ih
    rw [mem_insertSortedUnique, ih, List.mem_cons]

theorem insertSortedUnique_pairwise {α : Type} [DecidableEq α] {lt : α → α → Bool}
    (ltTrans : ∀ a b c, lt a b = true → lt b c = true → lt a c = true)
    (ltConnex : ∀ a b, a ≠ b → lt a b = false → lt b a = true)
    {x : α} {l : List α} (hl : l.Pairwise fun a b => lt a b = true) :
    (insertSortedUnique lt x l).Pairwise fun a b => lt a b = true := by
  induction l with
  | nil => simp [insertSortedUnique]
  | cons z zs ih =>
    rw [List.pairwise_cons] at hl
    rw [insertSortedUnique]
    split
    · exact List.pairwise_cons.2 hl
    · split
      · rename_i hne hxz
        refine List.pairwise_cons.2 ⟨?_, List.pairwise_cons.2 hl⟩
        intro b hb
        rcases List.mem_cons.1 hb with rfl | hb2
        · exact hxz
        · exact ltTrans _ _ _ hxz (hl.1 b hb2)
      · rename_i hne hxz
        refine List.pairwise_cons.2 ⟨?_, ih hl.2⟩
        intro b hb
        rcases mem_insertSortedUnique.1 hb with rfl | hb2
        · exact ltConnex _ _ hne (by simpa using hxz)
        · exact hl.1 b hb2

theorem sortedUnique_pairwise {α : Type} [DecidableEq α] (lt : α → α → Bool)
    (ltTrans : ∀ a b c, lt a b = true → lt b c = true → lt a c = true)
    (ltConnex : ∀ a b, a ≠ b → lt a b = false → lt b a = true)
    (l : List α) : (sortedUnique lt l).Pairwise fun a b => lt a b = true := by
  induction l with
  | nil => simp [sortedUnique]
  | cons z zs ih =>
    rw [sortedUnique, List.foldr_cons]
    exact insertSortedUnique_pairwise ltTrans ltConnex ih

theorem sortedUnique_nodup {α : Type} [DecidableEq α] (lt : α → α → Bool)
    (ltTrans : ∀ a b c, lt a b = true → lt b c = true → lt a c = true)
    (ltConnex : ∀ a b, a ≠ b → lt a b = false → lt b a = true)
    (ltIrrefl : ∀ a, lt a a = false)
    (l : List α) : (sortedUnique lt l).Nodup := by
  have := sortedUnique_pairwise lt ltTrans ltConnex l
  exact this.imp fun {a b} hab => by
    intro hEq
    subst hEq
    rw [ltIrrefl a] at hab
    cases hab

/-! ### Lemmas about imputation -/

theorem alookup_eq_none_of_not_mem_keys {α : Type} {l : List (String × α)} {c : String}
    (h : c ∉ l.map Prod.fst) : alookup l c = none := by
  induction l with
  | nil => rfl
  | cons p rest ih =>
    rw [alookup]
    rw [List.map_cons, List.mem_cons] at h
    push_neg at h
    rw [if_neg fun hp => h.1 hp.symm]
    exact ih h.2

theorem fitGo_cons_ok {df : DataFrame} {column : String} {strategy : Strategy}
    {rest : List (String × Strategy)} {fvs : List (String × Cell)}
    (h : fitGo df ((column, strategy) :: rest) = .ok fvs) :
    ∃ cells v fvs2, alookup df column = some cells ∧
      computeFillValue cells column strategy = .ok v ∧
      fitGo df rest = .ok fvs2 ∧ fvs = (column, v) :: fvs2 := by
  rw [fitGo] at h
  split at h
  · cases h
  · rename_i cells hlook
    split at h
    · cases h
    · rename_i v hcfv
      cases hrec : fitGo df rest with
      | error e =>
        rw [hrec] at h
        simp only [Except.map] at h
        cases h
      | ok fvs2 =>
        rw [hrec] at h
        simp only [Except.map] at h
        cases h
        exact ⟨cells, v, fvs2, hlook, hcfv, rfl, rfl⟩

theorem fitGo_ok_forall {df : DataFrame} {strats : List (String × Strategy)}
    {fvs : List (String × Cell)} (h : fitGo df strats = .ok fvs) :
    ∀ p ∈ strats, ∃ cells v, alookup df p.1 = some cells ∧
      computeFillValue cells p.1 p.2 = .ok v := by
  induction strats generalizing fvs with
  | nil =>
    intro p hp
    simp at hp
  | cons q rest ih =>
    obtain ⟨column, strategy⟩ := q
    obtain ⟨cells, v, fvs2, hlook, hcfv, hrec, rfl⟩ := fitGo_cons_ok h
    intro p hp
    rcases List.mem_cons.1 hp with rfl | hp2
    · exact ⟨cells, v, hlook, hcfv⟩
    · exact ih hrec p hp2

theorem fitGo_keys {df : DataFrame} {strats : List (String × Strategy)}
    {fvs : List (String × Cell)} (h : fitGo df strats = .ok fvs) :
    fvs.map Prod.fst = strats.map Prod.fst := by
  induction strats generalizing fvs with
  | nil =>
    rw [fitGo] at h
    cases h
    rfl
  | cons q rest ih =>
    obtain ⟨column, strategy⟩ := q
    obtain ⟨cells, v, fvs2, hlook, hcfv, hrec, rfl⟩ := fitGo_cons_ok h
    simp [ih hrec]

theorem fitGo_lookup {df : DataFrame} {strats : List (String × Strategy)}
    {fvs : List (String × Cell)} {c : String} {s : Strategy}
    (h : fitGo df strats = .ok fvs) (hc : alookup strats c = some s) :
    ∃ cells v, alookup df c = some cells ∧ computeFillValue cells c s = .ok v ∧
      alookup fvs c = some v := by
  induction strats generalizing fvs with
  | nil => cases hc
  | cons q rest ih =>
    obtain ⟨column, strategy⟩ := q
    obtain ⟨cells, v, fvs2, hlook, hcfv, hrec, rfl⟩ := fitGo_cons_ok h
    rw [alookup] at hc
    by_cases hcol : column = c
    · rw [if_pos hcol] at hc
      cases hc
      subst hcol
      exact ⟨cells, v, hlook, hcfv, by simp [alookup]⟩
    · rw [if_neg hcol] at hc
      obtain ⟨cells2, v2, h1, h2, h3⟩ := ih hrec hc
      refine ⟨cells2, v2, h1, h2, ?_⟩
      rw [alookup, if_neg hcol]
      exact h3

theorem fitGo_error_of_absent {df : DataFrame} {strats : List (String × Strategy)}
    (h : ∃ p ∈ strats, alookup df p.1 = none) :
    ∃ e, fitGo df strats = .error e := by
  cases hfit : fitGo df strats with
  | error e => exact ⟨e, rfl⟩
  | ok fvs =>
    obtain ⟨p, hp, hnone⟩ := h
    obtain ⟨cells, v, hlook, _⟩ := fitGo_ok_forall hfit p hp
    rw [hnone] at hlook
    cases hlook

theorem fitGo_error_of_compute_error {df : DataFrame} {strats : List (String × Strategy)}
    {p : String × Strategy} {cells : List Cell} {e2 : String}
    (hp : p ∈ strats) (hlook : alookup df p.1 = some cells)
    (hcfv : computeFillValue cells p.1 p.2 = .error e2) :
    ∃ e, fitGo df strats = .error e := by
  cases hfit : fitGo df strats with
  | error e => exact ⟨e, rfl⟩
  | ok fvs =>
    obtain ⟨cells2, v, hlook2, hok⟩ := fitGo_ok_forall hfit p hp
    rw [hlook] at hlook2
    cases hlook2
    rw [hok] at hcfv
    cases hcfv

theorem transform_lookup_of_not_mem {fvs : List (String × Cell)} {df : DataFrame} {c : String}
    (h : alookup fvs c = none) :
    alookup (MissingValueImputation.transform fvs df).1 c = alookup df c := by
  induction fvs generalizing df with
  | nil => rfl
  | cons q rest ih =>
    obtain ⟨column, v⟩ := q
    rw [alookup] at h
    by_cases hcol : column = c
    · rw [if_pos hcol] at h
      cases h
    · rw [if_neg hcol] at h
      rw [MissingValueImputation.transform]
      cases hlook : alookup df column with
      | none => rfl
      | some cells =>
        rw [ih h]
        exact alookup_dfSet_ne hcol

theorem transform_cons_some {column : String} {w : Cell} {rest : List (String × Cell)}
    {df : DataFrame} {cells : List Cell} (hlook : alookup df column = some cells) :
    MissingValueImputation.transform ((column, w) :: rest) df =
      MissingValueImputation.transform rest (dfSet df column (fillna cells w)) := by
  rw [MissingValueImputation.transform, hlook]

theorem transform_cons_none {column : String} {w : Cell} {rest : List (String × Cell)}
    {df : DataFrame} (hlook : alookup df column = none) :
    MissingValueImputation.transform ((column, w) :: rest) df =
      (df, some ("Column " ++ column ++ " is not present in the DataFrame.")) := by
  rw [MissingValueImputation.transform, hlook]

theorem transform_ok_lookup {fvs : List (String × Cell)} {df df' : DataFrame} {c : String}
    {v : Cell} {cells : List Cell}
    (hnodup : (fvs.map Prod.fst).Nodup)
    (h : MissingValueImputation.transform fvs df = (df', none))
    (hfv : alookup fvs c = some v) (hcol : alookup df c = some cells) :
    alookup df' c = some (fillna cells v) := by
  induction fvs generalizing df df' cells with
  | nil => cases hfv
  | cons q rest ih =>
    obtain ⟨column, w⟩ := q
    rw [List.map_cons, List.nodup_cons] at hnodup
    by_cases hcol2 : column = c
    · subst hcol2
      rw [alookup, if_pos rfl] at hfv
      injection hfv with hfv
      subst hfv
      rw [transform_cons_some hcol] at h
      have hrest : alookup rest column = none := alookup_eq_none_of_not_mem_keys hnodup.1
      have hkeep : alookup (MissingValueImputation.transform rest
            (dfSet df column (fillna cells w))).1 column =
          alookup (dfSet df column (fillna cells w)) column :=
        transform_lookup_of_not_mem hrest
      rw [h] at hkeep
      dsimp only at hkeep
      rw [hkeep]
      exact alookup_dfSet_same (by rw [hcol]; rfl)
    · rw [alookup, if_neg hcol2] at hfv
      cases hlook : alookup df column with
      | none =>
        rw [transform_cons_none hlook] at h
        simp at h
      | some cells0 =>
        rw [transform_cons_some hlook] at h
        exact ih hnodup.2 h hfv (by rw [alookup_dfSet_ne hcol2]; exact hcol)

theorem transform_prefix_error {fvs₁ : List (String × Cell)} {c : String} {v : Cell}
    {fvs₂ : List (String × Cell)} {df : DataFrame}
    (hpre : ∀ p ∈ fvs₁, (alookup df p.1).isSome = true)
    (hc : alookup df c = none) :
    MissingValueImputation.transform (fvs₁ ++ (c, v) :: fvs₂) df =
      ((MissingValueImputation.transform fvs₁ df).1,
        some ("Column " ++ c ++ " is not present in the DataFrame.")) := by
  induction fvs₁ generalizing df with
  | nil =>
    rw [List.nil_append, transform_cons_none hc]
    rfl
  | cons q rest ih =>
    obtain ⟨column, w⟩ := q
    have hq := hpre (column, w) (List.mem_cons_self _ _)
    cases hlook : alookup df column with
    | none =>
      rw [hlook] at hq
      cases hq
    | some cells =>
      have hne : column ≠ c := by
        intro hh
        rw [hh, hc] at hlook
        cases hlook
      rw [List.cons_append, transform_cons_some hlook, transform_cons_some hlook]
      exact ih
        (fun p hp => by
          rw [alookup_dfSet_isSome]
          exact hpre p (List.mem_cons_of_mem _ hp))
        (by rw [alookup_dfSet_ne hne]; exact hc)

theorem fit_transform_error {m : MissingValueImputation} {df : DataFrame} {e : String}
    (h : m.fit df = .error e) : m.fit_transform df = (df, some e) := by
  rw [MissingValueImputation.fit_transform, h]

theorem fit_transform_ok {m : MissingValueImputation} {df : DataFrame}
    {fvs : List (String × Cell)} (h : m.fit df = .ok fvs) :
    m.fit_transform df = MissingValueImputation.transform fvs df := by
  rw [MissingValueImputation.fit_transform, h]

/-! ### Claims C1, C2, C3 -/

/-- C1: for every table and every column `c` configured with strategy `mean`
whose dtype is numeric (and which has at least one non-missing value, so that
the mean exists), after a successful `fit_transform` every previously missing
cell of `c` equals the mean of `c`'s non-missing values computed on the
pre-transform table, and every non-missing cell is unchanged. -/
theorem C1_mean_imputation
    (strats : List (String × Strategy)) (df : DataFrame) {df' : DataFrame} {c : String}
    {cells : List Cell}
    (hnodup : (strats.map Prod.fst).Nodup)
    (hs : alookup strats c = some (Strategy.strat "mean"))
    (hcol : alookup df c = some cells)
    (hnum : isNumericDtype cells = true)
    (hnonempty : numsOf cells ≠ [])
    (hrun : MissingValueImputation.fit_transform ⟨strats⟩ df = (df', none)) :
    ∃ out, alookup df' c = some out ∧ out.length = cells.length ∧
      ∀ i, i < cells.length →
        (cells.getD i Cell.na = Cell.na →
          out.getD i Cell.na =
            Cell.num ((numsOf cells).sum / ((numsOf cells).length : ℚ))) ∧
        (cells.getD i Cell.na ≠ Cell.na →
          out.getD i Cell.na = cells.getD i Cell.na) := by
  cases hfit : MissingValueImputation.fit ⟨strats⟩ df with
  | error e =>
    rw [fit_transform_error hfit] at hrun
    simp at hrun
  | ok fvs =>
    rw [fit_transform_ok hfit] at hrun
    have hfit2 : fitGo df strats = .ok fvs := hfit
    obtain ⟨cells2, v, hlook2, hcfv, hfv⟩ := fitGo_lookup hfit2 hs
    rw [hcol] at hlook2
    injection hlook2 with hlook2
    subst hlook2
    rw [computeFillValue, if_pos rfl, if_pos hnum] at hcfv
    injection hcfv with hcfv
    subst hcfv
    have hlen : (numsOf cells).length ≠ 0 := by
      simpa [List.length_eq_zero] using hnonempty
    have hmean : colMean cells =
        Cell.num ((numsOf cells).sum / ((numsOf cells).length : ℚ)) := by
      rw [colMean, if_neg hlen]
    have hnodup2 : (fvs.map Prod.fst).Nodup := by
      rw [fitGo_keys hfit2]
      exact hnodup
    have hout := transform_ok_lookup hnodup2 hrun hfv hcol
    refine ⟨fillna cells (colMean cells), hout, fillna_length, ?_⟩
    intro i hi
    constructor
    · intro hna
      rw [hmean, fillna_getD_of_na hi hna (by simp)]
    · intro hna
      exact fillna_getD_of_not_na hi hna

/-- C1 witness: imputing `mean` on column `a` of the table
`{a: [NaN, 2]}` fills the missing cell with the mean 2. -/
theorem C1_mean_imputation_witness :
    ∃ out, alookup [("a", [Cell.num 2, Cell.num 2])] "a" = some out ∧
      out.length = [Cell.na, Cell.num 2].length ∧
      ∀ i, i < [Cell.na, Cell.num 2].length →
        ([Cell.na, Cell.num 2].getD i Cell.na = Cell.na →
          out.getD i Cell.na =
            Cell.num ((numsOf [Cell.na, Cell.num 2]).sum /
              ((numsOf [Cell.na, Cell.num 2]).length : ℚ))) ∧
        ([Cell.na, Cell.num 2].getD i Cell.na ≠ Cell.na →
          out.getD i Cell.na = [Cell.na, Cell.num 2].getD i Cell.na) :=
  C1_mean_imputation [("a", Strategy.strat "mean")] [("a", [Cell.na, Cell.num 2])]
    (by decide) (by decide) (by decide) (by decide) (by decide)
    (by with_unfolding_all rfl)

/-- C2 counterexample: fill values are fitted on `{a: [NaN], b: [NaN]}` with
literal strategy 0 for both columns; `transform` applied to the table
`{a: [NaN]}` (which lacks column `b`) raises the schema error for `b`, but has
already filled column `a` in place — the table is modified, contradicting the
claim that it is left unmodified. -/
theorem C2_counterexample :
    MissingValueImputation.fit ⟨[("a", Strategy.custom 0), ("b", Strategy.custom 0)]⟩
        [("a", [Cell.na]), ("b", [Cell.na])] =
      .ok [("a", Cell.num 0), ("b", Cell.num 0)] ∧
    MissingValueImputation.transform [("a", Cell.num 0), ("b", Cell.num 0)] [("a", [Cell.na])] =
      ([("a", [Cell.num 0])], some "Column b is not present in the DataFrame.") ∧
    [("a", [Cell.num 0])] ≠ [("a", [Cell.na])] :=
  ⟨by with_unfolding_all rfl, by with_unfolding_all rfl, by decide⟩

/-- C2 (amended): a schema error is raised for a configured column absent from
the table; at fit time (hence during `fit_transform`) the table is left
unmodified, while at transform time the fitted columns preceding the absent one
have already been filled in place (partial progress). -/
theorem C2_absent_column_amended :
    (∀ (strats : List (String × Strategy)) (df : DataFrame),
        (∃ p ∈ strats, alookup df p.1 = none) →
        ∃ e, MissingValueImputation.fit_transform ⟨strats⟩ df = (df, some e)) ∧
    (∀ (fvs₁ : List (String × Cell)) (c : String) (v : Cell) (fvs₂ : List (String × Cell))
        (df : DataFrame),
        (∀ p ∈ fvs₁, (alookup df p.1).isSome = true) → alookup df c = none →
        MissingValueImputation.transform (fvs₁ ++ (c, v) :: fvs₂) df =
          ((MissingValueImputation.transform fvs₁ df).1,
            some ("Column " ++ c ++ " is not present in the DataFrame."))) := by
  constructor
  · intro strats df habs
    obtain ⟨e, he⟩ := fitGo_error_of_absent habs
    exact ⟨e, fit_transform_error he⟩
  · intro fvs₁ c v fvs₂ df hpre hc
    exact transform_prefix_error hpre hc

/-- C2 witness: both parts of the amended claim at concrete inputs. -/
theorem C2_absent_column_amended_witness :
    (∃ e, MissingValueImputation.fit_transform ⟨[("a", Strategy.custom 0)]⟩ [] = ([], some e)) ∧
    MissingValueImputation.transform [("a", Cell.num 0), ("b", Cell.num 0)] [("a", [Cell.na])] =
      ((MissingValueImputation.transform [("a", Cell.num 0)] [("a", [Cell.na])]).1,
        some ("Column " ++ "b" ++ " is not present in the DataFrame.")) :=
  ⟨C2_absent_column_amended.1 [("a", Strategy.custom 0)] []
      ⟨("a", Strategy.custom 0), by decide, by decide⟩,
    C2_absent_column_amended.2 [("a", Cell.num 0)] "b" (Cell.num 0) [] [("a", [Cell.na])]
      (by decide) (by decide)⟩

/-- C3: requesting `mean` imputation on a text (non-numeric) column makes `fit`
fail — with the type-mismatch error coming from the fill-value computation for
that column — so `fit_transform` raises and returns the table unmodified. -/
theorem C3_mean_on_text
    {strats : List (String × Strategy)} {df : DataFrame} {c : String} {cells : List Cell}
    (hs : alookup strats c = some (Strategy.strat "mean"))
    (hcol : alookup df c = some cells)
    (hnum : isNumericDtype cells = false) :
    (∃ e, MissingValueImputation.fit ⟨strats⟩ df = .error e ∧
        MissingValueImputation.fit_transform ⟨strats⟩ df = (df, some e)) ∧
      computeFillValue cells c (Strategy.strat "mean") =
        .error ("Mean strategy is not applicable for non-numeric column " ++ c ++ ".") := by
  have hcfv : computeFillValue cells c (Strategy.strat "mean") =
      .error ("Mean strategy is not applicable for non-numeric column " ++ c ++ ".") := by
    rw [computeFillValue, if_pos rfl, if_neg (by simp [hnum])]
  refine ⟨?_, hcfv⟩
  have hp := alookup_mem hs
  obtain ⟨e, he⟩ := fitGo_error_of_compute_error hp hcol hcfv
  exact ⟨e, he, fit_transform_error he⟩

/-- C3 witness: `mean` on the text column `t` of `{t: ["x"]}` fails and leaves
the table unmodified. -/
theorem C3_mean_on_text_witness :
    (∃ e, MissingValueImputation.fit ⟨[("t", Strategy.strat "mean")]⟩
          [("t", [Cell.str "x"])] = .error e ∧
        MissingValueImputation.fit_transform ⟨[("t", Strategy.strat "mean")]⟩
          [("t", [Cell.str "x"])] = ([("t", [Cell.str "x"])], some e)) ∧
      computeFillValue [Cell.str "x"] "t" (Strategy.strat "mean") =
        .error ("Mean strategy is not applicable for non-numeric column " ++ "t" ++ ".") :=
  C3_mean_on_text (by decide) (by decide) (by decide)

/-! ### Lemmas about encoding -/

theorem allStrs_eq {cells : List Cell} {strs : List String} :
    allStrs cells = some strs ↔ cells = strs.map Cell.str := by
  induction cells generalizing strs with
  | nil =>
    cases strs <;> simp [allStrs]
  | cons x rest ih =>
    cases x with
    | num q =>
      simp only [allStrs]
      cases strs <;> simp
    | na =>
      simp only [allStrs]
      cases strs <;> simp
    | str s =>
      simp only [allStrs]
      cases strs with
      | nil => simp [Option.map_eq_some']
      | cons t ts =>
        simp only [Option.map_eq_some', List.map_cons, List.cons.injEq, Cell.str.injEq]
        constructor
        · rintro ⟨u, hu, h1, h2⟩
          cases h2
          exact ⟨h1, ih.1 hu⟩
        · rintro ⟨h1, h2⟩
          exact ⟨ts, ih.2 h2, h1, rfl⟩

theorem isObjectDtype_of_strs {cells : List Cell} {strs : List String}
    (h : allStrs cells = some strs) (hne : cells ≠ []) : isObjectDtype cells = true := by
  rw [allStrs_eq] at h
  subst h
  cases strs with
  | nil => exact absurd rfl hne
  | cons s rest => simp [isObjectDtype]

theorem strs_ne_nil {cells : List Cell} {strs : List String}
    (h : allStrs cells = some strs) (hne : cells ≠ []) : strs ≠ [] := by
  rw [allStrs_eq] at h
  subst h
  cases strs with
  | nil => exact absurd rfl hne
  | cons s rest => simp

theorem idxOf_lt_length {s : String} {l : List String} (h : s ∈ l) :
    idxOf s l < l.length := by
  induction l with
  | nil => cases h
  | cons t ts ih =>
    rw [idxOf]
    by_cases ht : t = s
    · rw [if_pos ht]
      simp
    · rw [if_neg ht]
      rcases List.mem_cons.1 h with rfl | h2
      · exact absurd rfl ht
      · simpa using ih h2

theorem getD_idxOf {s : String} {l : List String} (h : s ∈ l) :
    l.getD (idxOf s l) "" = s := by
  induction l with
  | nil => cases h
  | cons t ts ih =>
    rw [idxOf]
    by_cases ht : t = s
    · rw [if_pos ht]
      simpa using ht
    · rw [if_neg ht]
      rcases List.mem_cons.1 h with rfl | h2
      · exact absurd rfl ht
      · simpa using ih h2

theorem idxOf_getD_of_nodup {l : List String} (h : l.Nodup) {j : ℕ} (hj : j < l.length) :
    idxOf (l.getD j "") l = j := by
  induction l generalizing j with
  | nil => simp at hj
  | cons x rest ih =>
    rw [List.nodup_cons] at h
    cases j with
    | zero => simp [idxOf]
    | succ j =>
      rw [List.getD_cons_succ, idxOf]
      have hjr : j < rest.length := by simpa using hj
      have hmem : rest.getD j "" ∈ rest := by
        rw [List.getD_eq_getElem _ _ hjr]
        exact List.getElem_mem hjr
      have hxne : x ≠ rest.getD j "" := by
        intro hx
        rw [hx] at h
        exact h.1 hmem
      rw [if_neg hxne, ih h.2 hjr]

theorem idxOf_lt_of_pairwise {l : List String} (hp : l.Pairwise (· < ·))
    {s t : String} (hs : s ∈ l) (ht : t ∈ l) (hst : s < t) :
    idxOf s l < idxOf t l := by
  induction l with
  | nil => cases hs
  | cons h rest ih =>
    rw [List.pairwise_cons] at hp
    rw [idxOf, idxOf]
    by_cases hhs : h = s
    · rw [if_pos hhs]
      by_cases hht : h = t
      · rw [hhs] at hht
        rw [hht] at hst
        exact absurd hst (lt_irrefl t)
      · rw [if_neg hht]
        omega
    · rw [if_neg hhs]
      by_cases hht : h = t
      · subst hht
        rcases List.mem_cons.1 hs with rfl | hs2
        · exact absurd rfl hhs
        · exact absurd hst (not_lt.2 (le_of_lt (hp.1 s hs2)))
      · rw [if_neg hht]
        have hs2 : s ∈ rest := by
          rcases List.mem_cons.1 hs with rfl | h2
          · exact absurd rfl hhs
          · exact h2
        have ht2 : t ∈ rest := by
          rcases List.mem_cons.1 ht with rfl | h2
          · exact absurd rfl hht
          · exact h2
        exact Nat.succ_lt_succ (ih hp.2 hs2 ht2)

theorem classes_pairwise (strs : List String) :
    (sortedUnique strLtB strs).Pairwise (· < ·) := by
  have h := sortedUnique_pairwise strLtB
    (fun a b c h1 h2 => strLtB_trans h1 h2)
    (fun a b hne hf => strLtB_connex hne hf) strs
  exact h.imp fun hab => strLtB_iff.1 hab

theorem classes_nodup (strs : List String) : (sortedUnique strLtB strs).Nodup :=
  sortedUnique_nodup strLtB (fun a b c h1 h2 => strLtB_trans h1 h2)
    (fun a b hne hf => strLtB_connex hne hf) strLtB_irrefl strs

theorem classes_length_eq_dedup (strs : List String) :
    (sortedUnique strLtB strs).length = strs.dedup.length := by
  have h1 : List.Subperm (sortedUnique strLtB strs) strs.dedup :=
    (classes_nodup strs).subperm fun x hx => List.mem_dedup.2 ((mem_sortedUnique strLtB x strs).1 hx)
  have h2 : List.Subperm strs.dedup (sortedUnique strLtB strs) :=
    strs.nodup_dedup.subperm fun x hx => (mem_sortedUnique strLtB x strs).2 (List.mem_dedup.1 hx)
  exact le_antisymm h1.length_le h2.length_le

theorem alookup_dfDrop_of_mem {df : DataFrame} {columns : List String} {c : String}
    (h : c ∈ columns) : alookup (dfDrop df columns) c = none := by
  induction df with
  | nil => rfl
  | cons p rest ih =>
    rw [dfDrop, List.filter_cons]
    split
    · rename_i hkeep
      rw [decide_eq_true_eq] at hkeep
      have hne : p.1 ≠ c := by
        intro hp
        rw [hp] at hkeep
        exact hkeep h
      rw [alookup, if_neg hne]
      exact ih
    · exact ih

theorem append_underscore_ne (c mid cat : String) : c ++ mid ++ cat ≠ c ∨ mid.data = [] := by
  by_cases hmid : mid.data = []
  · exact Or.inr hmid
  · refine Or.inl fun h => ?_
    have := congrArg (fun s => s.data.length) h
    simp only [String.data_append, List.length_append] at this
    have : mid.data.length = 0 ∧ cat.data.length = 0 := by omega
    exact hmid (List.length_eq_zero.1 this.1)

theorem label_encode_cons_ok {df : DataFrame} {c : String} {cells : List Cell}
    {strs : List String} {rest : List String}
    (hcol : alookup df c = some cells) (hobj : isObjectDtype cells = true)
    (hstrs : allStrs cells = some strs) :
    FeatureEncoding.label_encode df (c :: rest) =
      FeatureEncoding.label_encode
        (dfSet df c (strs.map fun s =>
          Cell.num ((idxOf s (sortedUnique strLtB strs) : ℕ) : ℚ))) rest := by
  simp only [FeatureEncoding.label_encode, hcol]
  rw [if_pos hobj]
  simp only [labelEncodeCells, hstrs]

theorem label_encode_cons_absent {df : DataFrame} {c : String} {rest : List String}
    (hcol : alookup df c = none) :
    FeatureEncoding.label_encode df (c :: rest) =
      (df, some ("Column '" ++ c ++ "' is not present in the DataFrame.")) := by
  simp only [FeatureEncoding.label_encode, hcol]

theorem label_encode_cons_not_object {df : DataFrame} {c : String} {cells : List Cell}
    {rest : List String}
    (hcol : alookup df c = some cells) (hobj : isObjectDtype cells = false) :
    FeatureEncoding.label_encode df (c :: rest) =
      (df, some ("Column '" ++ c ++ "' is not of object type.")) := by
  simp only [FeatureEncoding.label_encode, hcol]
  rw [if_neg (by simp [hobj])]

theorem oneHotValidate_none {df : DataFrame} {columns : List String}
    (h : oneHotValidate df columns = none) :
    ∀ c ∈ columns, ∃ cells, alookup df c = some cells ∧ isObjectDtype cells = true := by
  induction columns with
  | nil =>
    intro c hc
    simp at hc
  | cons d rest ih =>
    intro c hc
    rw [oneHotValidate] at h
    split at h
    · cases h
    · rename_i cells hlook
      split at h
      · rename_i hobj
        rcases List.mem_cons.1 hc with rfl | hc2
        · exact ⟨cells, hlook, hobj⟩
        · exact ih h c hc2
      · cases h

/-- C5: `one_hot_encode` validates every listed column before transforming any:
if some listed column is absent or not of object dtype, the call errors and the
held table is returned unchanged — no column encoded, dropped, or added. -/
theorem C5_one_hot_validates_before_transform
    {df : DataFrame} {columns : List String} {c : String}
    (hc : c ∈ columns)
    (hbad : alookup df c = none ∨
      ∃ cells, alookup df c = some cells ∧ isObjectDtype cells = false) :
    ∃ e, FeatureEncoding.one_hot_encode df columns = (df, some e) := by
  cases hval : oneHotValidate df columns with
  | some e =>
    exact ⟨e, by rw [FeatureEncoding.one_hot_encode, hval]⟩
  | none =>
    obtain ⟨cells, hlook, hobj⟩ := oneHotValidate_none hval c hc
    rcases hbad with h | ⟨cells2, h2, hobj2⟩
    · rw [h] at hlook
      cases hlook
    · rw [h2] at hlook
      injection hlook with hl
      subst hl
      rw [hobj] at hobj2
      cases hobj2

/-- C5 witness: one-hot encoding `["a", "b"]` on the table `{a: ["x"]}` (column
`b` absent) fails and leaves the held table unchanged. -/
theorem C5_one_hot_validates_before_transform_witness :
    ∃ e, FeatureEncoding.one_hot_encode [("a", [Cell.str "x"])] ["a", "b"] =
      ([("a", [Cell.str "x"])], some e) :=
  C5_one_hot_validates_before_transform (c := "b") (by decide) (Or.inl (by decide))

/-- C4: label encoding a non-empty all-string column assigns the code
`idxOf s classes` to each value `s`, where `classes` are the distinct values in
ascending order; the codes are exactly `0..k-1` for the `k` distinct values,
equal codes mean equal values, and codes are assigned in lexicographic order of
the categories (hence re-running on the same input gives the same mapping). -/
theorem C4_label_encode
    (cells : List Cell) {df : DataFrame} {c : String} {strs : List String}
    (hcol : alookup df c = some cells)
    (hstrs : allStrs cells = some strs)
    (hne : cells ≠ []) :
    ∃ enc, FeatureEncoding.label_encode df [c] = (dfSet df c enc, none) ∧
      alookup (dfSet df c enc) c = some enc ∧
      enc = strs.map (fun s => Cell.num ((idxOf s (sortedUnique strLtB strs) : ℕ) : ℚ)) ∧
      (sortedUnique strLtB strs).length = strs.dedup.length ∧
      (∀ s ∈ strs, idxOf s (sortedUnique strLtB strs) < (sortedUnique strLtB strs).length) ∧
      (∀ s t, s ∈ strs → t ∈ strs →
        (idxOf s (sortedUnique strLtB strs) = idxOf t (sortedUnique strLtB strs) ↔ s = t)) ∧
      (∀ j, j < (sortedUnique strLtB strs).length →
        ∃ s ∈ strs, idxOf s (sortedUnique strLtB strs) = j) ∧
      (∀ s t, s ∈ strs → t ∈ strs → s < t →
        idxOf s (sortedUnique strLtB strs) < idxOf t (sortedUnique strLtB strs)) := by
  have hobj := isObjectDtype_of_strs hstrs hne
  refine ⟨strs.map fun s => Cell.num ((idxOf s (sortedUnique strLtB strs) : ℕ) : ℚ),
    ?_, ?_, rfl, classes_length_eq_dedup strs, ?_, ?_, ?_, ?_⟩
  · rw [label_encode_cons_ok hcol hobj hstrs]
    rfl
  · exact alookup_dfSet_same (by rw [hcol]; rfl)
  · intro s hs
    exact idxOf_lt_length ((mem_sortedUnique strLtB s strs).2 hs)
  · intro s t hs ht
    constructor
    · intro hidx
      have h1 := getD_idxOf ((mem_sortedUnique strLtB s strs).2 hs)
      have h2 := getD_idxOf ((mem_sortedUnique strLtB t strs).2 ht)
      rw [hidx] at h1
      exact h1.symm.trans h2
    · intro h
      rw [h]
  · intro j hj
    refine ⟨(sortedUnique strLtB strs).getD j "",
      (mem_sortedUnique strLtB _ strs).1 ?_,
      idxOf_getD_of_nodup (classes_nodup strs) hj⟩
    rw [List.getD_eq_getElem _ _ hj]
    exact List.getElem_mem hj
  · intro s t hs ht hst
    exact idxOf_lt_of_pairwise (classes_pairwise strs)
      ((mem_sortedUnique strLtB s strs).2 hs) ((mem_sortedUnique strLtB t strs).2 ht) hst

/-- C4 witness: label encoding column `c` of `{c: ["b", "a", "b"]}`. -/
theorem C4_label_encode_witness :
    ∃ enc, FeatureEncoding.label_encode [("c", [Cell.str "b", Cell.str "a", Cell.str "b"])]
        ["c"] =
      (dfSet [("c", [Cell.str "b", Cell.str "a", Cell.str "b"])] "c" enc, none) ∧
      alookup (dfSet [("c", [Cell.str "b", Cell.str "a", Cell.str "b"])] "c" enc) "c" =
        some enc ∧
      enc = ["b", "a", "b"].map
        (fun s => Cell.num ((idxOf s (sortedUnique strLtB ["b", "a", "b"]) : ℕ) : ℚ)) ∧
      (sortedUnique strLtB ["b", "a", "b"]).length = ["b", "a", "b"].dedup.length ∧
      (∀ s ∈ ["b", "a", "b"], idxOf s (sortedUnique strLtB ["b", "a", "b"]) <
        (sortedUnique strLtB ["b", "a", "b"]).length) ∧
      (∀ s t, s ∈ ["b", "a", "b"] → t ∈ ["b", "a", "b"] →
        (idxOf s (sortedUnique strLtB ["b", "a", "b"]) =
            idxOf t (sortedUnique strLtB ["b", "a", "b"]) ↔ s = t)) ∧
      (∀ j, j < (sortedUnique strLtB ["b", "a", "b"]).length →
        ∃ s ∈ ["b", "a", "b"], idxOf s (sortedUnique strLtB ["b", "a", "b"]) = j) ∧
      (∀ s t, s ∈ ["b", "a", "b"] → t ∈ ["b", "a", "b"] → s < t →
        idxOf s (sortedUnique strLtB ["b", "a", "b"]) <
          idxOf t (sortedUnique strLtB ["b", "a", "b"])) :=
  C4_label_encode [Cell.str "b", Cell.str "a", Cell.str "b"]
    (by decide) (by decide) (by decide)

/-- C10: `label_encode` is per-column, not all-or-nothing: with a valid
categorical column listed first and an absent or non-categorical column listed
after it, the call errors but the first column has already been label-encoded
in the held table. -/
theorem C10_label_encode_partial_progress
    (cells : List Cell) {df : DataFrame} {c1 c2 : String} {rest : List String}
    {strs : List String}
    (hne12 : c1 ≠ c2)
    (hcol : alookup df c1 = some cells)
    (hstrs : allStrs cells = some strs)
    (hne : cells ≠ [])
    (hbad : alookup df c2 = none ∨
      ∃ cells2, alookup df c2 = some cells2 ∧ isObjectDtype cells2 = false) :
    ∃ e, FeatureEncoding.label_encode df (c1 :: c2 :: rest) =
      (dfSet df c1 (strs.map fun s =>
        Cell.num ((idxOf s (sortedUnique strLtB strs) : ℕ) : ℚ)), some e) := by
  have hobj := isObjectDtype_of_strs hstrs hne
  rw [label_encode_cons_ok hcol hobj hstrs]
  rcases hbad with hnone | ⟨cells2, hsome, hobj2⟩
  · exact ⟨_, label_encode_cons_absent (by rw [alookup_dfSet_ne hne12]; exact hnone)⟩
  · exact ⟨_, label_encode_cons_not_object
      (by rw [alookup_dfSet_ne hne12]; exact hsome) hobj2⟩

/-- C10 witness: encoding `["c", "d"]` on `{c: ["b", "a"], d: [1]}`: column `d`
is numeric, the call errors, yet `c` is already encoded in the held table. -/
theorem C10_label_encode_partial_progress_witness :
    ∃ e, FeatureEncoding.label_encode [("c", [Cell.str "b", Cell.str "a"]),
        ("d", [Cell.num 1])] ["c", "d"] =
      (dfSet [("c", [Cell.str "b", Cell.str "a"]), ("d", [Cell.num 1])] "c"
        (["b", "a"].map fun s =>
          Cell.num ((idxOf s (sortedUnique strLtB ["b", "a"]) : ℕ) : ℚ)), some e) :=
  C10_label_encode_partial_progress [Cell.str "b", Cell.str "a"]
    (by decide) (by decide) (by decide) (by decide)
    (Or.inr ⟨[Cell.num 1], by decide, by decide⟩)

theorem oneHot_name_ne (c cat : String) : c ++ "_" ++ cat ≠ c := by
  intro h
  have h2 : (c ++ "_" ++ cat).data.length = c.data.length := by rw [h]
  rw [String.data_append, String.data_append, List.length_append, List.length_append] at h2
  have hu : ("_" : String).data.length = 1 := by decide
  omega

theorem alookup_oneHotCols_self (c : String) (strs : List String) :
    alookup (oneHotCols c strs) c = none := by
  apply alookup_eq_none_of_not_mem_keys
  intro hmem
  rw [oneHotCols, List.map_map, List.mem_map] at hmem
  obtain ⟨cat, hcat, heq⟩ := hmem
  exact oneHot_name_ne c cat heq

/-- C6: one-hot encoding a non-empty all-string column with `k` distinct
categories replaces the held table by the original minus that column plus
exactly `k-1` indicator columns; the original column is gone, every indicator
column keeps one 0/1 cell per input row, and the rows holding the dropped first
category are all-zero across the indicator columns. -/
theorem C6_one_hot_structure
    (cells : List Cell) {df : DataFrame} {c : String} {strs : List String}
    (hcol : alookup df c = some cells)
    (hstrs : allStrs cells = some strs)
    (hne : cells ≠ []) :
    FeatureEncoding.one_hot_encode df [c] =
      (dfDrop df [c] ++ oneHotCols c strs, none) ∧
    (oneHotCols c strs).length = (sortedUnique strLtB strs).length - 1 ∧
    alookup (dfDrop df [c] ++ oneHotCols c strs) c = none ∧
    (∀ p ∈ oneHotCols c strs, p.2.length = strs.length ∧
      ∀ x ∈ p.2, x = Cell.num 0 ∨ x = Cell.num 1) ∧
    (∀ i, i < strs.length →
      strs.getD i "" = (sortedUnique strLtB strs).headD "" →
      ∀ p ∈ oneHotCols c strs, p.2.getD i Cell.na = Cell.num 0) := by
  have hobj := isObjectDtype_of_strs hstrs hne
  have hstrsne := strs_ne_nil hstrs hne
  have hval : oneHotValidate df [c] = none := by
    simp only [oneHotValidate, hcol]
    rw [if_pos hobj]
  have hcs : columnsStrs df [c] = some [(c, strs)] := by
    simp only [columnsStrs, hcol, hstrs]
    rfl
  have htr : oneHotTransform df [c] = .ok (dfDrop df [c] ++ oneHotCols c strs) := by
    rw [oneHotTransform, hcs]
    simp [List.flatMap]
  refine ⟨?_, ?_, ?_, ?_, ?_⟩
  · rw [FeatureEncoding.one_hot_encode, hval, htr]
  · rw [oneHotCols]
    simp
  · rw [alookup_append_right (alookup_dfDrop_of_mem (List.mem_singleton.2 rfl))]
    exact alookup_oneHotCols_self c strs
  · intro p hp
    rw [oneHotCols, List.mem_map] at hp
    obtain ⟨cat, hcat, rfl⟩ := hp
    refine ⟨by simp, ?_⟩
    intro x hx
    rw [List.mem_map] at hx
    obtain ⟨s, hs, rfl⟩ := hx
    by_cases hsc : s = cat
    · rw [if_pos hsc]
      exact Or.inr rfl
    · rw [if_neg hsc]
      exact Or.inl rfl
  · intro i hi hhead p hp
    rw [oneHotCols, List.mem_map] at hp
    obtain ⟨cat, hcat, rfl⟩ := hp
    have hclne : sortedUnique strLtB strs ≠ [] := by
      intro hnil
      obtain ⟨s, hs⟩ := List.exists_mem_of_ne_nil strs hstrsne
      have hmem : s ∈ sortedUnique strLtB strs := (mem_sortedUnique strLtB s strs).2 hs
      rw [hnil] at hmem
      cases hmem
    obtain ⟨h0, tail, hcl⟩ := List.exists_cons_of_ne_nil hclne
    have hnodupcl := classes_nodup strs
    rw [hcl, List.nodup_cons] at hnodupcl
    rw [hcl] at hcat
    simp only [List.drop_one, List.tail_cons] at hcat
    have hhne : h0 ≠ cat := fun hh => hnodupcl.1 (hh ▸ hcat)
    have hi2 : i < (strs.map fun s => Cell.num (if s = cat then 1 else 0)).length := by
      simpa using hi
    rw [List.getD_eq_getElem _ _ hi2, List.getElem_map]
    have hsi : strs.getD i "" = h0 := by
      rw [hhead, hcl]
      rfl
    rw [List.getD_eq_getElem _ _ hi] at hsi
    rw [hsi, if_neg hhne]

/-- C6 witness: one-hot encoding column `c` of `{c: ["b", "a", "c"]}` (three
categories) gives two indicator columns and drops the original. -/
theorem C6_one_hot_structure_witness :
    FeatureEncoding.one_hot_encode [("c", [Cell.str "b", Cell.str "a", Cell.str "c"])] ["c"] =
      (dfDrop [("c", [Cell.str "b", Cell.str "a", Cell.str "c"])] ["c"] ++
        oneHotCols "c" ["b", "a", "c"], none) ∧
    (oneHotCols "c" ["b", "a", "c"]).length =
      (sortedUnique strLtB ["b", "a", "c"]).length - 1 ∧
    alookup (dfDrop [("c", [Cell.str "b", Cell.str "a", Cell.str "c"])] ["c"] ++
      oneHotCols "c" ["b", "a", "c"]) "c" = none ∧
    (∀ p ∈ oneHotCols "c" ["b", "a", "c"], p.2.length = ["b", "a", "c"].length ∧
      ∀ x ∈ p.2, x = Cell.num 0 ∨ x = Cell.num 1) ∧
    (∀ i, i < ["b", "a", "c"].length →
      ["b", "a", "c"].getD i "" = (sortedUnique strLtB ["b", "a", "c"]).headD "" →
      ∀ p ∈ oneHotCols "c" ["b", "a", "c"], p.2.getD i Cell.na = Cell.num 0) :=
  C6_one_hot_structure [Cell.str "b", Cell.str "a", Cell.str "c"]
    (by decide) (by decide) (by decide)

/-! ### Lemmas about polynomial expansion -/

theorem isNumericDtype_map_num (qs : List ℚ) : isNumericDtype (qs.map Cell.num) = true := by
  rw [isNumericDtype, List.all_eq_true]
  intro x hx
  rw [List.mem_map] at hx
  obtain ⟨q, hq, rfl⟩ := hx
  rfl

theorem isObjectDtype_map_num (qs : List ℚ) : isObjectDtype (qs.map Cell.num) = false := by
  rw [isObjectDtype, List.any_eq_false]
  intro x hx
  rw [List.mem_map] at hx
  obtain ⟨q, hq, rfl⟩ := hx
  simp

theorem allNums_map_num (qs : List ℚ) : allNums (qs.map Cell.num) = some qs := by
  induction qs with
  | nil => rfl
  | cons q rest ih => simp [allNums, ih]

theorem range_map_getD {α β : Type} (l : List α) (d : α) (f : α → β) :
    (List.range l.length).map (fun r => f (l.getD r d)) = l.map f := by
  apply List.ext_getElem
  · simp
  · intro i h1 h2
    rw [List.getElem_map, List.getElem_range, List.getElem_map,
      List.getD_eq_getElem _ _ (by simpa using h2)]

/-- C7: degree-1 polynomial expansion of a single non-empty numeric column
reproduces exactly that column — same single column name, identical values. -/
theorem C7_poly_degree_one_identity
    {t : PolynomialFeaturesTransformer} {name : String} {qs : List ℚ}
    (hinit : PolynomialFeaturesTransformer.init 1 = .ok t)
    (hqs : qs ≠ []) :
    t.fit_transform [(name, qs.map Cell.num)] none = .ok [(name, qs.map Cell.num)] := by
  rw [PolynomialFeaturesTransformer.init, if_neg (by norm_num)] at hinit
  injection hinit with hinit
  subst hinit
  rw [PolynomialFeaturesTransformer.fit_transform]
  have h1 : [(name, qs.map Cell.num)].filter (fun p => isNumericDtype p.2) =
      [(name, qs.map Cell.num)] := by
    simp [List.filter_cons, isNumericDtype_map_num]
  have h2 : [(name, qs.map Cell.num)].filter (fun p => isObjectDtype p.2) = [] := by
    simp [List.filter_cons, isObjectDtype_map_num]
  have h3 : columnsNums [(name, qs.map Cell.num)] = some [(name, qs)] := by
    simp [columnsNums, allNums_map_num]
  have hlen : ¬ qs.length = 0 := by simpa [List.length_eq_zero] using hqs
  show polyGo 1 [(name, qs.map Cell.num)] = _
  rw [polyGo]
  simp only [h1, h2, h3, List.isEmpty_cons, List.map_cons, List.map_nil, List.headD_cons,
    List.length_cons, List.length_nil, Nat.zero_add]
  rw [if_neg (by simp), if_neg (by simp), if_neg hlen]
  have hcombos : (List.range 1).flatMap (fun k => cwr (k + 1) (List.range 1)) = [[0]] := by
    decide
  rw [hcombos, if_neg (by simp)]
  have hname : comboName [name] [0] = name := rfl
  have hval : ∀ r, comboValue [qs] [0] r = qs.getD r 0 := by
    intro r
    rw [comboValue]
    simp
  have hcolval : (List.range qs.length).map (fun r => Cell.num (comboValue [qs] [0] r)) =
      qs.map Cell.num := by
    simp only [hval]
    exact range_map_getD qs 0 Cell.num
  simp only [List.map_cons, List.map_nil, hname, hcolval]

/-- C7 witness: degree-1 expansion of `{C: [4, 7]}` returns `{C: [4, 7]}`. -/
theorem C7_poly_degree_one_identity_witness :
    PolynomialFeaturesTransformer.fit_transform ⟨1⟩
        [("C", [(4 : ℚ), 7].map Cell.num)] none =
      .ok [("C", [(4 : ℚ), 7].map Cell.num)] :=
  C7_poly_degree_one_identity (by rfl) (by decide)

/-! ### Lemmas about aggregation -/

theorem mapExcept_ok_length {α β : Type} {f : α → Except String β} {l : List α} {ys : List β}
    (h : mapExcept f l = .ok ys) : ys.length = l.length := by
  induction l generalizing ys with
  | nil =>
    rw [mapExcept] at h
    cases h
    rfl
  | cons x xs ih =>
    rw [mapExcept] at h
    split at h
    · cases h
    · rename_i y hy
      cases hrec : mapExcept f xs with
      | error e =>
        rw [hrec] at h
        simp only [Except.map] at h
        cases h
      | ok ys2 =>
        rw [hrec] at h
        simp only [Except.map] at h
        cases h
        simp [ih hrec]

theorem mapExcept_ok_mem {α β : Type} {f : α → Except String β} {l : List α} {ys : List β}
    (h : mapExcept f l = .ok ys) : ∀ y ∈ ys, ∃ x ∈ l, f x = .ok y := by
  induction l generalizing ys with
  | nil =>
    rw [mapExcept] at h
    cases h
    intro y hy
    simp at hy
  | cons x xs ih =>
    rw [mapExcept] at h
    split at h
    · cases h
    · rename_i y0 hy0
      cases hrec : mapExcept f xs with
      | error e =>
        rw [hrec] at h
        simp only [Except.map] at h
        cases h
      | ok ys2 =>
        rw [hrec] at h
        simp only [Except.map] at h
        cases h
        intro y hy
        rcases List.mem_cons.1 hy with rfl | hy2
        · exact ⟨x, List.mem_cons_self _ _, hy0⟩
        · obtain ⟨x2, hx2, hfx2⟩ := ih hrec y hy2
          exact ⟨x2, List.mem_cons_of_mem _ hx2, hfx2⟩

theorem gcolsColumns_mem {gcols : List String} {keys : List (List Cell)} {i : ℕ}
    {p : String × List Cell} (h : p ∈ gcolsColumns gcols keys i) :
    ∃ j, p.2 = keys.map fun k => k.getD j Cell.na := by
  induction gcols generalizing i with
  | nil => cases h
  | cons c rest ih =>
    rw [gcolsColumns] at h
    rcases List.mem_cons.1 h with rfl | h2
    · exact ⟨i, rfl⟩
    · exact ih h2

theorem alookup_gcolsColumns {gcols : List String} (keys : List (List Cell)) (i : ℕ) {j : ℕ}
    (hnodup : gcols.Nodup) (hj : j < gcols.length) :
    alookup (gcolsColumns gcols keys i) (gcols.getD j "") =
      some (keys.map fun k => k.getD (i + j) Cell.na) := by
  induction gcols generalizing i j with
  | nil => simp at hj
  | cons c rest ih =>
    rw [List.nodup_cons] at hnodup
    cases j with
    | zero =>
      rw [gcolsColumns, List.getD_cons_zero, alookup, if_pos rfl, Nat.add_zero]
    | succ j =>
      have hjr : j < rest.length := by simpa using hj
      have hmem : rest.getD j "" ∈ rest := by
        rw [List.getD_eq_getElem _ _ hjr]
        exact List.getElem_mem hjr
      have hne : c ≠ rest.getD j "" := by
        intro hx
        rw [hx] at hnodup
        exact hnodup.1 hmem
      rw [gcolsColumns, List.getD_cons_succ, alookup, if_neg hne, ih (i + 1) hnodup.2 hjr]
      have : i + (j + 1) = (i + 1) + j := by omega
      rw [this]

theorem aggKeys_nodup (t : AggregationTransformer) (df : DataFrame) :
    (aggKeys t df).Nodup :=
  sortedUnique_nodup keyLtB (fun a b c h1 h2 => keyLtB_trans h1 h2)
    (fun a b hne hf => keyLtB_connex hne hf) keyLtB_irrefl _

theorem mem_aggKeys {t : AggregationTransformer} {df : DataFrame} {k : List Cell} :
    k ∈ aggKeys t df ↔ ∃ r ∈ aggValidRows t df, aggKeyOf t df r = k := by
  rw [aggKeys, mem_sortedUnique, List.mem_map]

theorem agg_fit_transform_ok {t : AggregationTransformer} {df : DataFrame} {out : DataFrame}
    (h : t.fit_transform df = .ok out) :
    ∃ aggPart,
      mapExcept
        (fun p => (mapExcept (fun k => aggApply p.2 (aggGroupVals t df p.1 k)) (aggKeys t df)).map
          fun vals => (p.1, vals)) t.agg_funcs = .ok aggPart ∧
      out = gcolsColumns t.groupby_cols (aggKeys t df) 0 ++ aggPart := by
  rw [AggregationTransformer.fit_transform] at h
  split at h
  · cases h
  · split at h
    · cases h
    · split at h
      · cases h
      · rename_i aggPart hagg
        cases h
        exact ⟨aggPart, hagg, rfl⟩

/-- C8: a successful aggregation produces exactly one output row per distinct
combination of group-by values — the distinct keys, each listed once — and the
group-by columns reappear as regular output columns carrying those keys; in
particular, summing `x` grouped by `g` on rows (A,1), (A,2), (B,5) yields
exactly the rows (A,3) and (B,5). -/
theorem C8_aggregation_one_row_per_group :
    (∀ (t : AggregationTransformer) (df : DataFrame) (out : DataFrame),
        t.fit_transform df = .ok out →
        (aggKeys t df).Nodup ∧
        (∀ k, k ∈ aggKeys t df ↔ ∃ r ∈ aggValidRows t df, aggKeyOf t df r = k) ∧
        (∀ p ∈ out, p.2.length = (aggKeys t df).length) ∧
        (t.groupby_cols.Nodup →
          ∀ j, j < t.groupby_cols.length →
            alookup out (t.groupby_cols.getD j "") =
              some ((aggKeys t df).map fun k => k.getD j Cell.na))) ∧
    AggregationTransformer.fit_transform ⟨["g"], [("x", "sum")]⟩
        [("g", [Cell.str "A", Cell.str "A", Cell.str "B"]),
          ("x", [Cell.num 1, Cell.num 2, Cell.num 5])] =
      .ok [("g", [Cell.str "A", Cell.str "B"]), ("x", [Cell.num 3, Cell.num 5])] := by
  constructor
  · intro t df out h
    obtain ⟨aggPart, hagg, rfl⟩ := agg_fit_transform_ok h
    refine ⟨aggKeys_nodup t df, fun k => mem_aggKeys, ?_, ?_⟩
    · intro p hp
      rcases List.mem_append.1 hp with hp1 | hp2
      · obtain ⟨j, hj⟩ := gcolsColumns_mem hp1
        rw [hj]
        simp
      · obtain ⟨x, hx, hfx⟩ := mapExcept_ok_mem hagg p hp2
        cases hvals : mapExcept (fun k => aggApply x.2 (aggGroupVals t df x.1 k))
            (aggKeys t df) with
        | error e =>
          rw [hvals] at hfx
          simp only [Except.map] at hfx
          cases hfx
        | ok vals =>
          rw [hvals] at hfx
          simp only [Except.map] at hfx
          cases hfx
          simpa using mapExcept_ok_length hvals
    · intro hnodup j hj
      have h0 := alookup_gcolsColumns (aggKeys t df) 0 hnodup hj
      rw [Nat.zero_add] at h0
      exact alookup_append_left h0
  · with_unfolding_all rfl

/-- C8 witness: the general conjunct applied to the concrete grouping instance. -/
theorem C8_aggregation_one_row_per_group_witness :
    (aggKeys ⟨["g"], [("x", "sum")]⟩
        [("g", [Cell.str "A", Cell.str "A", Cell.str "B"]),
          ("x", [Cell.num 1, Cell.num 2, Cell.num 5])]).Nodup ∧
    (∀ k, k ∈ aggKeys ⟨["g"], [("x", "sum")]⟩
        [("g", [Cell.str "A", Cell.str "A", Cell.str "B"]),
          ("x", [Cell.num 1, Cell.num 2, Cell.num 5])] ↔
      ∃ r ∈ aggValidRows ⟨["g"], [("x", "sum")]⟩
          [("g", [Cell.str "A", Cell.str "A", Cell.str "B"]),
            ("x", [Cell.num 1, Cell.num 2, Cell.num 5])],
        aggKeyOf ⟨["g"], [("x", "sum")]⟩
          [("g", [Cell.str "A", Cell.str "A", Cell.str "B"]),
            ("x", [Cell.num 1, Cell.num 2, Cell.num 5])] r = k) ∧
    (∀ p ∈ [("g", [Cell.str "A", Cell.str "B"]), ("x", [Cell.num 3, Cell.num 5])],
      p.2.length = (aggKeys ⟨["g"], [("x", "sum")]⟩
        [("g", [Cell.str "A", Cell.str "A", Cell.str "B"]),
          ("x", [Cell.num 1, Cell.num 2, Cell.num 5])]).length) ∧
    ((["g"] : List String).Nodup →
      ∀ j, j < (["g"] : List String).length →
        alookup [("g", [Cell.str "A", Cell.str "B"]), ("x", [Cell.num 3, Cell.num 5])]
            ((["g"] : List String).getD j "") =
          some ((aggKeys ⟨["g"], [("x", "sum")]⟩
              [("g", [Cell.str "A", Cell.str "A", Cell.str "B"]),
                ("x", [Cell.num 1, Cell.num 2, Cell.num 5])]).map
            fun k => k.getD j Cell.na)) :=
  C8_aggregation_one_row_per_group.1 ⟨["g"], [("x", "sum")]⟩
    [("g", [Cell.str "A", Cell.str "A", Cell.str "B"]),
      ("x", [Cell.num 1, Cell.num 2, Cell.num 5])]
    [("g", [Cell.str "A", Cell.str "B"]), ("x", [Cell.num 3, Cell.num 5])]
    (by with_unfolding_all rfl)

/-! ### Lemmas about binning -/

theorem append_ne_of_ne_nil {c s : String} (hs : s.data ≠ []) : c ++ s ≠ c := by
  intro h
  have h2 : (c ++ s).data.length = c.data.length := by rw [h]
  rw [String.data_append, List.length_append] at h2
  have : s.data.length = 0 := by omega
  exact hs (List.length_eq_zero.1 this)

theorem binned_name_ne (c : String) : c ++ "_binned" ≠ c :=
  append_ne_of_ne_nil (by decide)

theorem alookup_dfSetOrAdd_isSome_mono {df : DataFrame} {c n : String} {x : List Cell}
    (h : (alookup df n).isSome = true) :
    (alookup (dfSetOrAdd df c x) n).isSome = true := by
  by_cases hc : c = n
  · subst hc
    rw [alookup_dfSetOrAdd_self]
    rfl
  · rw [alookup_dfSetOrAdd_ne hc]
    exact h

theorem binRunAux_cons_absent {t : BinningTransformer} {df : DataFrame} {col : String}
    {rest : List String} (hlook : alookup df col = none) :
    binRunAux t df (col :: rest) =
      (df, some ("Column '" ++ col ++ "' not found in the DataFrame.")) := by
  simp only [binRunAux, hlook]

theorem binRunAux_cons_error {t : BinningTransformer} {df : DataFrame} {col : String}
    {rest : List String} {cells : List Cell} {e : String}
    (hlook : alookup df col = some cells) (hbin : binCells t cells = .error e) :
    binRunAux t df (col :: rest) =
      (df, some ("Failed to bin column '" ++ col ++ "': " ++ e)) := by
  simp only [binRunAux, hlook, hbin]

theorem binRunAux_cons_ok {t : BinningTransformer} {df : DataFrame} {col : String}
    {rest : List String} {cells binned : List Cell}
    (hlook : alookup df col = some cells) (hbin : binCells t cells = .ok binned) :
    binRunAux t df (col :: rest) =
      binRunAux t (dfSetOrAdd df (col ++ "_binned") binned) rest := by
  simp only [binRunAux, hlook, hbin]

theorem binRunAux_append_of_ok {t : BinningTransformer} {df dfm : DataFrame}
    {cols₁ cols₂ : List String}
    (h1 : binRunAux t df cols₁ = (dfm, none)) :
    binRunAux t df (cols₁ ++ cols₂) = binRunAux t dfm cols₂ := by
  induction cols₁ generalizing df with
  | nil =>
    rw [binRunAux] at h1
    cases h1
    rfl
  | cons d rest ih =>
    cases hlook : alookup df d with
    | none =>
      rw [binRunAux_cons_absent hlook] at h1
      simp at h1
    | some cells =>
      cases hbin : binCells t cells with
      | error e =>
        rw [binRunAux_cons_error hlook hbin] at h1
        simp at h1
      | ok binned =>
        rw [binRunAux_cons_ok hlook hbin] at h1
        rw [List.cons_append, binRunAux_cons_ok hlook hbin]
        exact ih h1

theorem binRunAux_append_ok {t : BinningTransformer} {df df' : DataFrame}
    {cols₁ cols₂ : List String}
    (h : binRunAux t df (cols₁ ++ cols₂) = (df', none)) :
    ∃ dfm, binRunAux t df cols₁ = (dfm, none) ∧ binRunAux t dfm cols₂ = (df', none) := by
  induction cols₁ generalizing df with
  | nil => exact ⟨df, rfl, h⟩
  | cons d rest ih =>
    cases hlook : alookup df d with
    | none =>
      rw [List.cons_append, binRunAux_cons_absent hlook] at h
      simp at h
    | some cells =>
      cases hbin : binCells t cells with
      | error e =>
        rw [List.cons_append, binRunAux_cons_error hlook hbin] at h
        simp at h
      | ok binned =>
        rw [List.cons_append, binRunAux_cons_ok hlook hbin] at h
        obtain ⟨dfm, hm1, hm2⟩ := ih h
        exact ⟨dfm, by rw [binRunAux_cons_ok hlook hbin]; exact hm1, hm2⟩

theorem binRunAux_preserves {t : BinningTransformer} {df df' : DataFrame}
    {cols : List String} {r : Option String} {c : String}
    (h : binRunAux t df cols = (df', r))
    (hc : ∀ e ∈ cols, e ++ "_binned" ≠ c) :
    alookup df' c = alookup df c := by
  induction cols generalizing df with
  | nil =>
    rw [binRunAux] at h
    cases h
    rfl
  | cons d rest ih =>
    cases hlook : alookup df d with
    | none =>
      rw [binRunAux_cons_absent hlook] at h
      cases h
      rfl
    | some cells =>
      cases hbin : binCells t cells with
      | error e =>
        rw [binRunAux_cons_error hlook hbin] at h
        cases h
        rfl
      | ok binned =>
        rw [binRunAux_cons_ok hlook hbin] at h
        rw [ih h fun e he => hc e (List.mem_cons_of_mem _ he)]
        exact alookup_dfSetOrAdd_ne (hc d (List.mem_cons_self _ _))

theorem binRunAux_isSome_mono {t : BinningTransformer} {df df' : DataFrame}
    {cols : List String} {r : Option String} {n : String}
    (h : binRunAux t df cols = (df', r))
    (hn : (alookup df n).isSome = true) :
    (alookup df' n).isSome = true := by
  induction cols generalizing df with
  | nil =>
    rw [binRunAux] at h
    cases h
    exact hn
  | cons d rest ih =>
    cases hlook : alookup df d with
    | none =>
      rw [binRunAux_cons_absent hlook] at h
      cases h
      exact hn
    | some cells =>
      cases hbin : binCells t cells with
      | error e =>
        rw [binRunAux_cons_error hlook hbin] at h
        cases h
        exact hn
      | ok binned =>
        rw [binRunAux_cons_ok hlook hbin] at h
        exact ih h (alookup_dfSetOrAdd_isSome_mono hn)

/-- C9: `BinningTransformer.fit_transform` processes targets in order.  On a
successful run every target keeps its source values and gains a `<column>_binned`
column (provided no target is named like another target's binned column); and if
an earlier prefix of targets succeeds while the next target fails — absent, or
its binning errors — the error is raised for that column and the table keeps
exactly the binned columns of the successful prefix (intentional partial
progress, not atomic). -/
theorem C9_binning_partial_progress :
    (∀ (t : BinningTransformer) (df df' : DataFrame),
        t.fit_transform df = (df', none) →
        (∀ c1 ∈ t.binning_cols, ∀ c2 ∈ t.binning_cols, c1 ++ "_binned" ≠ c2) →
        ∀ c ∈ t.binning_cols,
          alookup df' c = alookup df c ∧
          (alookup df' (c ++ "_binned")).isSome = true) ∧
    (∀ (t : BinningTransformer) (df : DataFrame) (cols₁ : List String) (c : String)
        (cols₂ : List String) (dfm : DataFrame),
        t.binning_cols = cols₁ ++ c :: cols₂ →
        binRunAux t df cols₁ = (dfm, none) →
        (alookup dfm c = none ∨
          ∃ cells e, alookup dfm c = some cells ∧ binCells t cells = .error e) →
        ∃ e2, t.fit_transform df = (dfm, some e2)) := by
  constructor
  · intro t df df' h hnocap c hc
    obtain ⟨cols₁, cols₂, hcols⟩ := List.append_of_mem hc
    rw [BinningTransformer.fit_transform, hcols] at h
    obtain ⟨dfm, hm1, hm2⟩ := binRunAux_append_ok h
    cases hlook : alookup dfm c with
    | none =>
      rw [binRunAux_cons_absent hlook] at hm2
      simp at hm2
    | some cells =>
      cases hbin : binCells t cells with
      | error e =>
        rw [binRunAux_cons_error hlook hbin] at hm2
        simp at hm2
      | ok binned =>
        rw [binRunAux_cons_ok hlook hbin] at hm2
        have hsub1 : ∀ e ∈ cols₁, e ∈ t.binning_cols := by
          intro e he
          rw [hcols]
          exact List.mem_append_left _ he
        have hsub2 : ∀ e ∈ cols₂, e ∈ t.binning_cols := by
          intro e he
          rw [hcols]
          exact List.mem_append_right _ (List.mem_cons_of_mem _ he)
        constructor
        · rw [binRunAux_preserves hm2 fun e he => hnocap e (hsub2 e he) c hc,
            alookup_dfSetOrAdd_ne (hnocap c hc c hc),
            binRunAux_preserves hm1 fun e he => hnocap e (hsub1 e he) c hc]
        · exact binRunAux_isSome_mono hm2
            (by rw [alookup_dfSetOrAdd_self]; rfl)
  · intro t df cols₁ c cols₂ dfm hcols h1 hbad
    rw [BinningTransformer.fit_transform, hcols, binRunAux_append_of_ok h1]
    rcases hbad with hnone | ⟨cells, e, hsome, herr⟩
    · exact ⟨_, binRunAux_cons_absent hnone⟩
    · exact ⟨_, binRunAux_cons_error hsome herr⟩

/-- C9 witness: both conjuncts at concrete inputs — custom binning of `v`
succeeds and appends `v_binned`; with targets `["v", "w"]` and `w` absent, the
run stops after binning `v`, keeping the `v_binned` column. -/
theorem C9_binning_partial_progress_witness :
    (∀ c ∈ (BinningTransformer.mk ["v"] "custom" 10 (some [0, 1, 2])).binning_cols,
      alookup [("v", [Cell.num 1]), ("v_binned", [Cell.str "(0/1, 1/1]"])] c =
        alookup [("v", [Cell.num 1])] c ∧
      (alookup [("v", [Cell.num 1]), ("v_binned", [Cell.str "(0/1, 1/1]"])]
        (c ++ "_binned")).isSome = true) ∧
    ∃ e2, BinningTransformer.fit_transform ⟨["v", "w"], "custom", 10, some [0, 1, 2]⟩
        [("v", [Cell.num 1])] =
      ([("v", [Cell.num 1]), ("v_binned", [Cell.str "(0/1, 1/1]"])], some e2) :=
  ⟨C9_binning_partial_progress.1 ⟨["v"], "custom", 10, some [0, 1, 2]⟩
      [("v", [Cell.num 1])]
      [("v", [Cell.num 1]), ("v_binned", [Cell.str "(0/1, 1/1]"])]
      (by with_unfolding_all rfl) (by decide),
    C9_binning_partial_progress.2 ⟨["v", "w"], "custom", 10, some [0, 1, 2]⟩
      [("v", [Cell.num 1])] ["v"] "w" []
      [("v", [Cell.num 1]), ("v_binned", [Cell.str "(0/1, 1/1]"])]
      (by decide) (by with_unfolding_all rfl) (Or.inl (by decide))⟩
